import Mathlib

/-!
Shallow embedding of the workflow execution engine of node-banana-genkit
(the zustand workflow store: graph store, dependency resolver, node executor,
generation request builder, async job poller, run controller), together with
proofs about the embedded definitions.

Conventions of the embedding:
* JavaScript runtime values that flow through dynamic configuration records are
  modelled by `JVal`; plain objects are association lists in insertion order.
* External collaborators (the generate endpoint, the operation-status endpoint,
  the grid splitter utility and image decoding) are abstracted as an
  environment `GenEnv`; fire-and-forget effects (toast messages, the global
  image history which records wall-clock timestamps, and auto-save posts) do
  not touch the store state modelled here and are omitted.
* Layout-only node fields (position, size, style, selection, group membership)
  are never read or written by the execution engine and are omitted from the
  node model.
-/

namespace NodeBanana

/-- JavaScript values appearing in dynamic node-configuration records.
Numbers are modelled as integers (every configuration number in the source is
an integer-valued parameter such as a seed or an upscale factor). -/
inductive JVal where
  | jnull
  | jbool (b : Bool)
  | jnum (n : Int)
  | jstr (s : String)
  | jarr (xs : List JVal)
  | jobj (fields : List (String × JVal))

/-- A JavaScript object, as an insertion-ordered association list. -/
abbrev Obj := List (String × JVal)

/-- Property lookup `o[k]`; `none` models an absent key (`undefined`). -/
def objGet (o : Obj) (k : String) : Option JVal :=
  (o.find? (fun p => p.1 = k)).map (fun p => p.2)

/-- Lookup with a default. -/
def objGetD (o : Obj) (k : String) (d : JVal) : JVal :=
  (objGet o k).getD d

/-- Does the object have key `k`? -/
def objHasKey (o : Obj) (k : String) : Bool :=
  o.any (fun p => p.1 = k)

/-- Property assignment `o[k] = v`: replaces the value in place if the key
exists, otherwise appends the key (JavaScript insertion-order semantics). -/
def objSet (o : Obj) (k : String) (v : JVal) : Obj :=
  if objHasKey o k then o.map (fun p => if p.1 = k then (k, v) else p)
  else o ++ [(k, v)]

/-- `delete o[k]`. -/
def objDelete (o : Obj) (k : String) : Obj :=
  o.filter (fun p => ¬ p.1 = k)

/-- Object spread `{...a, ...b}`: keys of `a` keep their position (values
overridden by `b` where present), then keys of `b` not in `a` follow. -/
def spreadObj (a b : Obj) : Obj :=
  a.map (fun p =>
    match b.find? (fun q => q.1 = p.1) with
    | some q => (p.1, q.2)
    | none => p) ++
  b.filter (fun q => ¬ objHasKey a q.1)

/-- Object rest destructuring `const {k₁, …, kₙ, ...rest} = o`. -/
def objStrip (o : Obj) (keys : List String) : Obj :=
  o.filter (fun p => ¬ p.1 ∈ keys)

/-- JavaScript truthiness of a possibly-absent value: `undefined`, `null`,
`false`, `0` and `""` are falsy; everything else is truthy. -/
def jsTruthy : Option JVal → Bool
  | none => false
  | some JVal.jnull => false
  | some (JVal.jbool b) => b
  | some (JVal.jnum n) => n ≠ 0
  | some (JVal.jstr s) => s ≠ ""
  | some (JVal.jarr _) => true
  | some (JVal.jobj _) => true

/-- Truthiness of a `string | null | undefined` value. -/
def truthyS : Option String → Bool
  | none => false
  | some s => s ≠ ""

/-- JavaScript `a || b` on `string | null | undefined` values. -/
def jsOrS (a b : Option String) : Option String :=
  if truthyS a then a else b

/-- JavaScript strict equality `v === true`. -/
def isTrueVal : Option JVal → Bool
  | some (JVal.jbool true) => true
  | _ => false

/-- Reads a string-typed field out of a dynamic record (the source only
applies this to fields declared `string` in the TypeScript types). -/
def objGetStr (o : Obj) (k : String) : String :=
  match objGet o k with
  | some (JVal.jstr s) => s
  | _ => ""

/-- Is `pat` a prefix of `s`? (helper for `String.prototype.includes`). -/
def charsPre : List Char → List Char → Bool
  | [], _ => true
  | _ :: _, [] => false
  | a :: as, b :: bs => a = b && charsPre as bs

/-- Is `pat` a contiguous substring of `s`? (`String.prototype.includes`). -/
def charsInf (pat : List Char) : List Char → Bool
  | [] => charsPre pat []
  | b :: bs => charsPre pat (b :: bs) || charsInf pat bs

/-- `model.includes('imagen')` from the sanitization rules. -/
def includesImagen (model : String) : Bool :=
  charsInf "imagen".toList model.toList

/-! ## Node and edge data model (from `@/types` as used by the store) -/

/-- `ImageInputNodeData` (fields the engine reads or writes). -/
structure ImageInputData where
  image : Option String
  filename : Option String
  dimensions : Option (Nat × Nat)
deriving DecidableEq

/-- `AnnotationNodeData` (fields the engine reads or writes). -/
structure AnnotationData where
  sourceImage : Option String
  outputImage : Option String
deriving DecidableEq

/-- `PromptNodeData`. -/
structure PromptData where
  prompt : String
deriving DecidableEq

/-- One entry of `SplitGridNodeData.childNodeIds`. -/
structure ChildBinding where
  imageInput : String
deriving DecidableEq

/-- `SplitGridNodeData` (fields the engine reads or writes). -/
structure SplitGridData where
  sourceImage : Option String
  childNodeIds : List ChildBinding
  gridRows : Nat
  gridCols : Nat
  isConfigured : Bool
  status : String
  error : Option String
deriving DecidableEq

/-- `OutputNodeData`. -/
structure OutputData where
  image : Option String
deriving DecidableEq

/-- The tagged node-data union.  The generator variant keeps its full
configuration record as a dynamic object, because `executeWorkflow` and
`regenerateNode` destructure it dynamically (`...dynamicConfig`). -/
inductive NodeData where
  | imageInput (d : ImageInputData)
  | annotationNode (d : AnnotationData)
  | prompt (d : PromptData)
  | universalGenerator (cfg : Obj)
  | splitGrid (d : SplitGridData)
  | output (d : OutputData)

/-- A workflow node: identity plus variant-specific data. -/
structure WorkflowNode where
  id : String
  data : NodeData

/-- A workflow edge.  `hasPause` models the truthiness of
`edge.data?.hasPause`. -/
structure WorkflowEdge where
  id : String
  source : String
  target : String
  sourceHandle : Option String
  targetHandle : Option String
  hasPause : Bool
deriving DecidableEq

/-! ## `getConnectedInputs` (graph store input resolution) -/

/-- The image output a source node contributes on an image-port edge:
`imageInput` nodes contribute `data.image`, annotation nodes
`data.outputImage`, generator nodes `data.outputImage`; other variants
contribute nothing. -/
def sourceImageOf : NodeData → Option String
  | NodeData.imageInput d => d.image
  | NodeData.annotationNode d => d.outputImage
  | NodeData.universalGenerator cfg =>
    match objGet cfg "outputImage" with
    | some (JVal.jstr s) => some s
    | _ => none
  | _ => none

/-- One iteration of the `forEach` in `getConnectedInputs`: the accumulator is
the `images` list built so far and the current `text` value. -/
def gciStep (nodes : List WorkflowNode) (acc : List String × Option String)
    (edge : WorkflowEdge) : List String × Option String :=
  match nodes.find? (fun n => n.id = edge.source) with
  | none => acc
  | some sourceNode =>
    let handleId := edge.targetHandle
    let acc1 :=
      if handleId = some "image" ∨ handleId = none then
        match sourceImageOf sourceNode.data with
        | some s => if s ≠ "" then (acc.1 ++ [s], acc.2) else acc
        | none => acc
      else acc
    if handleId = some "text" then
      match sourceNode.data with
      | NodeData.prompt d => (acc1.1, some d.prompt)
      | _ => acc1
    else acc1

/-- `getConnectedInputs(nodeId)`: the ordered upstream image outputs and the
upstream text value resolved from the edges targeting `nodeId`. -/
def getConnectedInputs (nodes : List WorkflowNode) (edges : List WorkflowEdge)
    (nodeId : String) : List String × Option String :=
  (edges.filter (fun e => e.target = nodeId)).foldl (gciStep nodes) ([], none)

/-! ## Generation request construction and sanitization -/

/-- Keys destructured away from the generator configuration in
`executeWorkflow` before building the request payload. -/
def execStripKeys : List String :=
  ["model", "image", "output", "status", "error", "userPrompt", "resolution",
   "outputImage", "inputPrompt", "inputImages", "useGoogleSearch"]

/-- Keys destructured away from the generator configuration in
`regenerateNode` before building the request payload. -/
def regenStripKeys : List String :=
  ["model", "image", "output", "status", "error", "inputImages", "inputPrompt",
   "resolution"]

/-- The literal part of the request payload:
`{ images, prompt: text, model: nodeData.model }`. -/
def basePayload (nodeData : Obj) (images : List String) (text : String) : Obj :=
  [("images", JVal.jarr (images.map JVal.jstr)),
   ("prompt", JVal.jstr text),
   ("model", objGetD nodeData "model" JVal.jnull)]

/-- Sanitization step 1 (`if (dynamicConfig.upscaleFactor) …`): nest the
upscale factor under `upscaleConfig`, force `mode: "upscale"`, and delete
`sampleImageSize`, `aspectRatio` and the top-level `upscaleFactor`. -/
def execRule1 (dynamicConfig p : Obj) : Obj :=
  if jsTruthy (objGet dynamicConfig "upscaleFactor") then
    objDelete (objDelete (objDelete
      (objSet (objSet p "upscaleConfig"
          (JVal.jobj [("upscaleFactor", objGetD dynamicConfig "upscaleFactor" JVal.jnull)]))
        "mode" (JVal.jstr "upscale"))
      "sampleImageSize") "aspectRatio") "upscaleFactor"
  else p

/-- Sanitization step 2: non-Imagen models reject `aspectRatio`. -/
def execRule2 (model : String) (p : Obj) : Obj :=
  if !(includesImagen model) && jsTruthy (objGet p "aspectRatio") then
    objDelete p "aspectRatio"
  else p

/-- Sanitization step 3: default `safetySetting` for Imagen, remove it for
non-Imagen models. -/
def execRule3 (model : String) (p : Obj) : Obj :=
  if includesImagen model && !(jsTruthy (objGet p "safetySetting")) then
    objSet p "safetySetting" (JVal.jstr "block_few")
  else if !(includesImagen model) && jsTruthy (objGet p "safetySetting") then
    objDelete p "safetySetting"
  else p

/-- Sanitization step 4 (`if (requestPayload.seed) …`): a present truthy seed
forces `addWatermark: false`. -/
def execRule4 (p : Obj) : Obj :=
  if jsTruthy (objGet p "seed") then objSet p "addWatermark" (JVal.jbool false)
  else p

/-- Sanitization step 5 (`if (requestPayload.addWatermark === true &&
requestPayload.seed) …`): drop the seed. -/
def execRule5 (p : Obj) : Obj :=
  if isTrueVal (objGet p "addWatermark") && jsTruthy (objGet p "seed") then
    objDelete p "seed"
  else p

/-- The request payload `executeWorkflow` sends to `/api/generate` for a
generator node: strips internal keys, spreads the dynamic configuration, then
applies the upscale, aspect-ratio, safety-setting and seed/watermark
sanitization steps in source order. -/
def buildExecRequest (nodeData : Obj) (images : List String) (text : String) : Obj :=
  execRule5 (execRule4 (execRule3 (objGetStr nodeData "model")
    (execRule2 (objGetStr nodeData "model")
      (execRule1 (objStrip nodeData execStripKeys)
        (spreadObj (basePayload nodeData images text) (objStrip nodeData execStripKeys))))))

/-- The request payload `regenerateNode` sends to `/api/generate`: strips its
(smaller) key set and spreads the remaining configuration, with no further
sanitization. -/
def buildRegenRequest (nodeData : Obj) (images : List String) (text : String) : Obj :=
  spreadObj (basePayload nodeData images text) (objStrip nodeData regenStripKeys)

/-! ## Node-id counters (`nodeIdCounter`, `loadWorkflow`) -/

/-- Decimal value of a digit character. -/
def digitVal (c : Char) : Nat := c.toNat - 48

/-- `parseInt` on a string of decimal digits, as a fold. -/
def digitsToNat (ds : List Char) : Nat :=
  ds.foldl (fun a c => a * 10 + digitVal c) 0

/-- The decimal digit character for `d < 10`. -/
def digitChar (d : Nat) : Char := Char.ofNat (48 + d)

/-- Decimal digits of `n`, most significant first (`fuel ≥ n` suffices). -/
def natDigitsAux : Nat → Nat → List Char
  | 0, n => [digitChar n]
  | Nat.succ fuel, n =>
    if n < 10 then [digitChar n]
    else natDigitsAux fuel (n / 10) ++ [digitChar (n % 10)]

/-- Decimal rendering of a natural number (JavaScript template `${n}`). -/
def natToString (n : Nat) : String := String.mk (natDigitsAux n n)

/-- The numeric suffix matched by the regex "hyphen, digits, end of string":
the maximal trailing run of digits, provided it is nonempty and preceded by
a hyphen. -/
def idNumericSuffix (id : String) : Option Nat :=
  let rev := id.toList.reverse
  let ds := rev.takeWhile Char.isDigit
  if ds.isEmpty then none
  else
    match rev.drop ds.length with
    | c :: _ => if c = '-' then some (digitsToNat ds.reverse) else none
    | [] => none

/-- The `reduce` in `loadWorkflow` computing the maximal numeric id suffix
(ids without a numeric suffix are skipped; the accumulator starts at 0). -/
def maxIdSuffix (ids : List String) : Nat :=
  ids.foldl
    (fun m id =>
      match idNumericSuffix id with
      | some k => max m k
      | none => m) 0

/-- The module-level id-generation counters of the workflow store. -/
structure StoreCounters where
  nodeIdCounter : Nat
  groupIdCounter : Nat
deriving DecidableEq

/-- A workflow document as produced/consumed by save/load (`groupKeys` are
the keys of the optional `groups` record). -/
structure WorkflowFile where
  name : String
  nodes : List WorkflowNode
  edges : List WorkflowEdge
  groupKeys : List String

/-- The counter reassignments performed by `loadWorkflow`: both counters are
overwritten with the maximal numeric suffix found in the loaded document
(the previous counter values `c` are not consulted). -/
def loadWorkflowCounters (c : StoreCounters) (wf : WorkflowFile) : StoreCounters :=
  { nodeIdCounter := maxIdSuffix (wf.nodes.map (fun n => n.id)),
    groupIdCounter := maxIdSuffix wf.groupKeys }

/-- Node-id generation in `addNode`/`pasteNodes`:
`` `${type}-${++nodeIdCounter}` ``. -/
def mkNodeId (type : String) (counter : Nat) : String :=
  type ++ "-" ++ natToString counter

/-! ## Engine state and node-data updates -/

/-- The slice of the workflow store the execution engine reads and writes. -/
structure WFState where
  nodes : List WorkflowNode
  edges : List WorkflowEdge
  isRunning : Bool
  currentNodeId : Option String
  pausedAtNodeId : Option String

/-- `updateNodeData(nodeId, patch)`: maps over the node list and merges the
patch into the matching node's data (the patch is expressed as a function on
the variant it addresses; other variants are unchanged, as the source only
ever patches fields of the node type at hand). -/
def updateNodeData (st : WFState) (nodeId : String) (f : NodeData → NodeData) : WFState :=
  { st with
    nodes := st.nodes.map (fun n => if n.id = nodeId then { n with data := f n.data } else n) }

/-- Merge a dynamic patch into a generator node's configuration record. -/
def mergeGen (upd : Obj) : NodeData → NodeData
  | NodeData.universalGenerator cfg => NodeData.universalGenerator (spreadObj cfg upd)
  | d => d

/-- Patch `{ sourceImage: image }` on an annotation node. -/
def setAnnotationSource (image : String) : NodeData → NodeData
  | NodeData.annotationNode d => NodeData.annotationNode { d with sourceImage := some image }
  | d => d

/-- Patch `{ outputImage: image }` on an annotation node. -/
def setAnnotationOutput (image : String) : NodeData → NodeData
  | NodeData.annotationNode d => NodeData.annotationNode { d with outputImage := some image }
  | d => d

/-- Patch `{ image, filename, dimensions }` on an image-input node (the
split-grid child population). -/
def setImageInputFields (image filename : String) (wh : Nat × Nat) : NodeData → NodeData
  | NodeData.imageInput d =>
    NodeData.imageInput { d with image := some image, filename := some filename,
                                 dimensions := some wh }
  | d => d

/-- Patch `{ sourceImage, status: "loading", error: null }` on a split node. -/
def setSplitLoading (img : String) : NodeData → NodeData
  | NodeData.splitGrid d =>
    NodeData.splitGrid { d with sourceImage := some img, status := "loading", error := none }
  | d => d

/-- Patch `{ status: "complete", error: null }` on a split node. -/
def setSplitComplete : NodeData → NodeData
  | NodeData.splitGrid d => NodeData.splitGrid { d with status := "complete", error := none }
  | d => d

/-- Patch `{ status: "error", error: msg }` on a split node. -/
def setSplitError (msg : String) : NodeData → NodeData
  | NodeData.splitGrid d => NodeData.splitGrid { d with status := "error", error := some msg }
  | d => d

/-- Patch `{ image }` on an output node. -/
def setOutputImage (image : String) : NodeData → NodeData
  | NodeData.output d => NodeData.output { d with image := some image }
  | d => d

/-- The data record of the node with the given id, if any. -/
def nodeDataOf (st : WFState) (nodeId : String) : Option NodeData :=
  (st.nodes.find? (fun n => n.id = nodeId)).map (fun n => n.data)

/-- The configuration record of the generator node with the given id
(empty if the id does not name a generator node). -/
def genConfigOf (st : WFState) (nodeId : String) : Obj :=
  match nodeDataOf st nodeId with
  | some (NodeData.universalGenerator cfg) => cfg
  | _ => []

/-! ## Dependency resolver (three-color depth-first topological sort) -/

/-- Faults of the traversal: the cycle throw, or exhaustion of the recursion
bound of the embedding (shown unreachable for the bound `sortFuel`). -/
inductive SortErr where
  | cycle
  | fuelOut
deriving DecidableEq

/-- Traversal state: `visited` (done), `visiting` (in-progress, most recent
first) and the accumulated order. -/
structure SortSt where
  visited : List String
  visiting : List String
  sorted : List WorkflowNode

/-- Sequential traversal of a list of node ids, propagating the first
fault (the `forEach`/recursion pattern of `visit` calls). -/
def visitList (g : String → SortSt → Except SortErr SortSt) :
    List String → SortSt → Except SortErr SortSt
  | [], st => Except.ok st
  | x :: xs, st =>
    match g x st with
    | Except.error e => Except.error e
    | Except.ok st' => visitList g xs st'

/-- The recursive `visit` of `executeWorkflow`'s topological sort: skip if
done, fault if in-progress, otherwise mark in-progress, visit the sources of
all incoming edges, then mark done and append the node to the order. -/
def visit (nodes : List WorkflowNode) (edges : List WorkflowEdge) :
    Nat → String → SortSt → Except SortErr SortSt
  | 0, _, _ => Except.error SortErr.fuelOut
  | Nat.succ fuel, nodeId, st =>
    if nodeId ∈ st.visited then Except.ok st
    else if nodeId ∈ st.visiting then Except.error SortErr.cycle
    else
      match visitList (visit nodes edges fuel)
          ((edges.filter (fun e => e.target = nodeId)).map (fun e => e.source))
          { st with visiting := nodeId :: st.visiting } with
      | Except.error e => Except.error e
      | Except.ok st2 =>
        let st3 : SortSt := { st2 with visiting := st2.visiting.erase nodeId,
                                       visited := nodeId :: st2.visited }
        match nodes.find? (fun n => n.id = nodeId) with
        | some node => Except.ok { st3 with sorted := st3.sorted ++ [node] }
        | none => Except.ok st3

/-- Recursion bound of the embedding: the traversal depth never exceeds the
number of distinct ids, which is at most `nodes.length + edges.length`. -/
def sortFuel (nodes : List WorkflowNode) (edges : List WorkflowEdge) : Nat :=
  nodes.length + edges.length + 1

/-- The full topological sort: visit every node of the store in order. -/
def topoSortSt (nodes : List WorkflowNode) (edges : List WorkflowEdge) :
    Except SortErr SortSt :=
  visitList (visit nodes edges (sortFuel nodes edges)) (nodes.map (fun n => n.id))
    { visited := [], visiting := [], sorted := [] }

/-! ## External interfaces (generate endpoint, operation polling, splitter) -/

/-- Response of `/api/generate` as consumed by the executor.  A non-ok HTTP
response is folded to the error message the source derives from the body. -/
structure GenResponse where
  ok : Bool
  errorMessage : String
  success : Bool
  output : Option String
  image : Option String
  operationId : Option String
  error : Option String

/-- Response of one `/api/operations` poll.  `errorMsg` models
`pollData.error?.message`; `medias` the list of `pollData.medias[].url`;
`media` the single `pollData.media?.url`. -/
structure PollResponse where
  ok : Bool
  done : Bool
  errorMsg : Option String
  medias : List String
  media : Option String

/-- Environment abstracting the network and utility collaborators: the
generation endpoint, the status endpoint (indexed by attempt number), the
grid splitter and image-dimension decoding. -/
structure GenEnv where
  generate : Obj → GenResponse
  poll : String → Nat → PollResponse
  split : String → Nat → Nat → Except String (List String)
  dims : String → Option (Nat × Nat)

/-- Outcome of the polling loop: a primary url plus all artifacts, a thrown
operation error, or exhaustion/`done` without artifacts (both of which the
source reports as the timeout throw). -/
inductive PollOutcome where
  | ok (primary : String) (all : List String)
  | thrown (msg : String)
  | timeout

/-- `while (attempts < 120)` — the attempt ceiling. -/
def maxPollAttempts : Nat := 120

/-- `setTimeout(r, 5000)` — the fixed polling interval in milliseconds (the
wall-clock wait itself is outside the state modelled here). -/
def pollIntervalMs : Nat := 5000

/-- The polling loop from attempt number `attempts` with `fuel` attempts
remaining; also counts the number of status queries performed. -/
def pollFrom (env : GenEnv) (opId : String) : Nat → Nat → PollOutcome × Nat
  | _, 0 => (PollOutcome.timeout, 0)
  | attempts, Nat.succ fuel =>
    let r := env.poll opId attempts
    if r.ok then
      if r.done then
        match r.errorMsg with
        | some m => (PollOutcome.thrown (if m = "" then "Operation failed" else m), 1)
        | none =>
          match r.medias with
          | u :: _ => (PollOutcome.ok u r.medias, 1)
          | [] =>
            match r.media with
            | some u =>
              if u ≠ "" then (PollOutcome.ok u [u], 1) else (PollOutcome.timeout, 1)
            | none => (PollOutcome.timeout, 1)
      else
        let rec1 := pollFrom env opId (attempts + 1) fuel
        (rec1.1, rec1.2 + 1)
    else
      let rec1 := pollFrom env opId (attempts + 1) fuel
      (rec1.1, rec1.2 + 1)

/-- The whole polling loop (`attempts = 0`, ceiling 120). -/
def pollLoop (env : GenEnv) (opId : String) : PollOutcome × Nat :=
  pollFrom env opId 0 maxPollAttempts

/-! ## Node executor -/

/-- Result of executing one node: either the loop continues with the next
node, or `executeWorkflow` returns immediately with the given state. -/
inductive StepRes where
  | proceed (st : WFState)
  | halt (st : WFState)

/-- `set({ isRunning: false, currentNodeId: null })`. -/
def haltState (st : WFState) : WFState :=
  { st with isRunning := false, currentNodeId := none }

/-- Generator-node error path: mark the node `error` with a message, stop the
run and return. -/
def genErrorHalt (st : WFState) (nodeId msg : String) : StepRes :=
  StepRes.halt (haltState (updateNodeData st nodeId
    (mergeGen [("status", JVal.jstr "error"), ("error", JVal.jstr msg)])))

/-- Generator-node success write-back:
`{ output, image, status: "success", error: null }` followed by
`set({ isRunning: false, currentNodeId: null })` and `return`. -/
def genSuccessHalt (st : WFState) (nodeId u : String) : WFState :=
  haltState (updateNodeData st nodeId
    (mergeGen [("output", JVal.jstr u), ("image", JVal.jstr u),
               ("status", JVal.jstr "success"), ("error", JVal.jnull)]))

/-- The `if (result.success && outputUrl)` tail of the generator case. -/
def genFinish (st : WFState) (nodeId : String) (resp : GenResponse)
    (outputUrl : Option String) : StepRes :=
  if resp.success && truthyS outputUrl then
    StepRes.halt (genSuccessHalt st nodeId (outputUrl.getD ""))
  else
    genErrorHalt st nodeId
      ((jsOrS resp.error (some "Generation failed (No output returned)")).getD "")

/-- Split-grid error path: mark the node `error`, stop the run and return. -/
def splitErrorHalt (st : WFState) (nodeId msg : String) : StepRes :=
  StepRes.halt (haltState (updateNodeData st nodeId (setSplitError msg)))

/-- `split-<row>-<col>.png` filename for tile `index` of a grid with
`gridCols` columns. -/
def splitFilename (index gridCols : Nat) : String :=
  "split-" ++ natToString (index / gridCols + 1) ++ "-" ++
    natToString (index % gridCols + 1) ++ ".png"

/-- Populate the bound child image-input nodes with the split tiles (the
dimension probe `new Image()` is `env.dims`; a probe failure skips the
update, as `onerror` resolves without writing). -/
def applySplitChildren (env : GenEnv) (splitImages : List String) (gridCols : Nat) :
    List ChildBinding → Nat → WFState → WFState
  | [], _, st => st
  | childSet :: rest, index, st =>
    let st' :=
      match splitImages.get? index with
      | some img =>
        if img ≠ "" then
          match env.dims img with
          | some wh =>
            updateNodeData st childSet.imageInput
              (setImageInputFields img (splitFilename index gridCols) wh)
          | none => st
        else st
      | none => st
    applySplitChildren env splitImages gridCols rest (index + 1) st'

/-- The `switch (node.type)` body of the run loop for a single node.  `node`
is the snapshot from the sorted order (so generator configuration reads are
from the pre-run data, as in the source), while resolved inputs read the
current state. -/
def execNode (env : GenEnv) (node : WorkflowNode) (st : WFState) : StepRes :=
  match node.data with
  | NodeData.imageInput _ => StepRes.proceed st
  | NodeData.prompt _ => StepRes.proceed st
  | NodeData.annotationNode d =>
    let inputs := getConnectedInputs st.nodes st.edges node.id
    match inputs.1.head? with
    | some image =>
      if image ≠ "" then
        let st1 := updateNodeData st node.id (setAnnotationSource image)
        if truthyS d.outputImage then StepRes.proceed st1
        else StepRes.proceed (updateNodeData st1 node.id (setAnnotationOutput image))
      else StepRes.proceed st
    | none => StepRes.proceed st
  | NodeData.universalGenerator cfg =>
    let inputs := getConnectedInputs st.nodes st.edges node.id
    let images := inputs.1
    if truthyS inputs.2 = false then
      genErrorHalt st node.id "Missing text input"
    else
      let text := inputs.2.getD ""
      let st1 := updateNodeData st node.id (mergeGen
        [("inputImages", JVal.jarr (images.map JVal.jstr)),
         ("inputPrompt", JVal.jstr text),
         ("status", JVal.jstr "loading"),
         ("error", JVal.jnull)])
      let resp := env.generate (buildExecRequest cfg images text)
      if resp.ok = false then genErrorHalt st1 node.id resp.errorMessage
      else if truthyS resp.operationId then
        let opId := resp.operationId.getD ""
        let st2 := updateNodeData st1 node.id (mergeGen
          [("operationId", JVal.jstr opId), ("status", JVal.jstr "loading")])
        match (pollLoop env opId).1 with
        | PollOutcome.thrown msg => genErrorHalt st2 node.id msg
        | PollOutcome.timeout => genErrorHalt st2 node.id "Video generation timed out"
        | PollOutcome.ok primary _ => genFinish st2 node.id resp (some primary)
      else
        genFinish st1 node.id resp (jsOrS resp.output resp.image)
  | NodeData.splitGrid d =>
    let inputs := getConnectedInputs st.nodes st.edges node.id
    match inputs.1.head? with
    | none => splitErrorHalt st node.id "No input image connected"
    | some sourceImage =>
      if sourceImage = "" then splitErrorHalt st node.id "No input image connected"
      else if d.isConfigured = false then
        splitErrorHalt st node.id "Node not configured - open settings first"
      else
        let st1 := updateNodeData st node.id (setSplitLoading sourceImage)
        match env.split sourceImage d.gridRows d.gridCols with
        | Except.error msg => splitErrorHalt st1 node.id msg
        | Except.ok splitImages =>
          let st2 := applySplitChildren env splitImages d.gridCols d.childNodeIds 0 st1
          StepRes.proceed (updateNodeData st2 node.id setSplitComplete)
  | NodeData.output _ =>
    let inputs := getConnectedInputs st.nodes st.edges node.id
    match inputs.1.head? with
    | some image =>
      if image ≠ "" then StepRes.proceed (updateNodeData st node.id (setOutputImage image))
      else StepRes.proceed st
    | none => StepRes.proceed st

/-! ## Run controller -/

/-- The per-node run loop of `executeWorkflow` over the remaining sorted
order: stop-switch check, pause-checkpoint check (skipped exactly for the
node the run resumed at), then node execution. -/
def runNodes (env : GenEnv) (isResuming : Bool) (startFrom : Option String) :
    List WorkflowNode → WFState → WFState
  | [], st => haltState st
  | node :: rest, st =>
    if st.isRunning = false then haltState st
    else
      let isResumingThisNode := isResuming && decide (startFrom = some node.id)
      if !isResumingThisNode &&
          st.edges.any (fun e => decide (e.target = node.id) && e.hasPause) then
        { st with pausedAtNodeId := some node.id, isRunning := false, currentNodeId := none }
      else
        match execNode env node { st with currentNodeId := some node.id } with
        | StepRes.halt st' => st'
        | StepRes.proceed st' => runNodes env isResuming startFrom rest st'

/-- `executeWorkflow(startFromNodeId?)`: reject concurrent runs, compute
`isResuming`, mark running, topologically sort (a sort fault is caught and
returns the controller to idle with no node touched), locate the start index
and run the remaining order. -/
def executeWorkflow (env : GenEnv) (st : WFState) (startFromNodeId : Option String) : WFState :=
  if st.isRunning then st
  else
    let isResuming : Bool :=
      match startFromNodeId, st.pausedAtNodeId with
      | some a, some b => decide (a = b)
      | _, _ => false
    let st1 := { st with isRunning := true, pausedAtNodeId := none }
    match topoSortSt st.nodes st.edges with
    | Except.error _ => haltState st1
    | Except.ok sortSt =>
      let sorted := sortSt.sorted
      let startIndex :=
        match startFromNodeId with
        | none => 0
        | some id =>
          match sorted.findIdx? (fun n => n.id = id) with
          | some i => i
          | none => 0
      runNodes env isResuming startFromNodeId (sorted.drop startIndex) st1

/-! ## Graph-level predicates used in the theorem statements -/

/-- `a` is connected to `b` by a single edge of the store. -/
def edgeRel (edges : List WorkflowEdge) (a b : String) : Prop :=
  ∃ e ∈ edges, e.source = a ∧ e.target = b

/-- The graph has no directed cycle (no id reaches itself through one or more
edges). -/
def Acyclic (edges : List WorkflowEdge) : Prop :=
  ∀ x, ¬ Relation.TransGen (edgeRel edges) x x

/-- The invariant of §3: edge endpoints reference existing node ids. -/
def wellFormed (nodes : List WorkflowNode) (edges : List WorkflowEdge) : Prop :=
  ∀ e ∈ edges, e.source ∈ nodes.map (fun n => n.id) ∧ e.target ∈ nodes.map (fun n => n.id)

/-- All ids the traversal can ever be called on: node ids and edge sources. -/
def allIds (nodes : List WorkflowNode) (edges : List WorkflowEdge) : List String :=
  nodes.map (fun n => n.id) ++ edges.map (fun e => e.source)

/-- The in-progress stack is linked by edges (most recent first: each entry
has an edge to the entry below it). -/
def VisitChain (edges : List WorkflowEdge) (st : SortSt) : Prop :=
  List.Chain' (edgeRel edges) st.visiting

/-- The id about to be visited has an edge to the top of the in-progress
stack (trivially true for a top-level visit with an empty stack). -/
def ChainTop (edges : List WorkflowEdge) (x : String) (st : SortSt) : Prop :=
  match st.visiting with
  | [] => True
  | h :: _ => edgeRel edges x h

/-- Book-keeping relation between traversal states across one successful
`visit` call: the in-progress stack is restored, done ids only grow, and ids
newly marked done were not in progress when the call started. -/
def VisitShape (st st' : SortSt) : Prop :=
  st'.visiting = st.visiting ∧
  (∀ y ∈ st.visited, y ∈ st'.visited) ∧
  (∀ y ∈ st'.visited, y ∈ st.visited ∨ ¬ y ∈ st.visiting)

/-- Data invariant of the traversal state: the accumulated order consists of
store nodes without id repetition, a node is done exactly when it is in the
order, predecessors of done ids are done, and every edge into an ordered node
has its source earlier in the order. -/
structure SortInv (nodes : List WorkflowNode) (edges : List WorkflowEdge)
    (st : SortSt) : Prop where
  sorted_mem : ∀ n ∈ st.sorted, n ∈ nodes
  sorted_nodupIds : (st.sorted.map (fun n => n.id)).Nodup
  visited_iff : ∀ n ∈ nodes, (n.id ∈ st.visited ↔ n.id ∈ st.sorted.map (fun n => n.id))
  visited_closed : ∀ i ∈ st.visited, ∀ e ∈ edges, e.target = i → e.source ∈ st.visited
  sorted_order : ∀ e ∈ edges, e.target ∈ st.sorted.map (fun n => n.id) →
    List.Sublist [e.source, e.target] (st.sorted.map (fun n => n.id))

/-! ## Concrete instances used by the closed theorems and witnesses -/

/-- Generator configuration with an explicit watermark request and a seed. -/
def cfgSeedWatermark : Obj :=
  [("model", JVal.jstr "vertexai/imagen-3.0-generate-001"),
   ("addWatermark", JVal.jbool true), ("seed", JVal.jnum 7)]

/-- Generator configuration of a non-Imagen model with an aspect ratio and
the search toggle on. -/
def cfgGemini : Obj :=
  [("model", JVal.jstr "googleai/gemini-2.5-flash-image"),
   ("aspectRatio", JVal.jstr "1:1"), ("useGoogleSearch", JVal.jbool true)]

/-- Imagen configuration on which full-run and regenerate requests agree. -/
def cfgImagenAgree : Obj :=
  [("model", JVal.jstr "vertexai/imagen-3.0-generate-001"),
   ("safetySetting", JVal.jstr "block_few"), ("sampleCount", JVal.jnum 1)]

/-- A prompt node used by the run scenarios. -/
def promptNode1 : WorkflowNode := ⟨"prompt-1", NodeData.prompt ⟨"make a video"⟩⟩

/-- A generator node used by the run scenarios. -/
def genNode1 : WorkflowNode :=
  ⟨"universalGenerator-2", NodeData.universalGenerator
    [("model", JVal.jstr "googleai/veo-3"), ("status", JVal.jstr "idle")]⟩

/-- An output node downstream of the generator. -/
def outNode1 : WorkflowNode := ⟨"output-3", NodeData.output ⟨none⟩⟩

/-- Text edge from the prompt to the generator. -/
def edgePG : WorkflowEdge :=
  ⟨"edge-1", "prompt-1", "universalGenerator-2", none, some "text", false⟩

/-- Image edge from the generator to the output node. -/
def edgeGO : WorkflowEdge :=
  ⟨"edge-2", "universalGenerator-2", "output-3", none, some "image", false⟩

/-- Idle three-node state: prompt feeding a generator feeding an output. -/
def stPGO : WFState := ⟨[promptNode1, genNode1, outNode1], [edgePG, edgeGO], false, none, none⟩

/-- Idle two-node state: prompt feeding a generator. -/
def stPG : WFState := ⟨[promptNode1, genNode1], [edgePG], false, none, none⟩

/-- The text edge from the prompt to the generator, flagged as a pause
checkpoint. -/
def edgePGpause : WorkflowEdge :=
  ⟨"edge-1", "prompt-1", "universalGenerator-2", none, some "text", true⟩

/-- Running two-node state whose generator has a pause checkpoint on its
incoming edge. -/
def stPGpauseRunning : WFState :=
  ⟨[promptNode1, genNode1], [edgePGpause], true, none, none⟩

/-- Environment whose generation endpoint answers synchronously with an
image and whose other collaborators are inert. -/
def envSync : GenEnv :=
  { generate := fun _ => ⟨true, "", true, some "img.png", none, none, none⟩,
    poll := fun _ _ => ⟨true, false, none, [], none⟩,
    split := fun _ _ _ => Except.error "unused",
    dims := fun _ => none }

/-- Environment whose generation endpoint returns a job handle and whose
status endpoint never reports done. -/
def envNeverDone : GenEnv :=
  { generate := fun _ => ⟨true, "", true, none, none, some "op-1", none⟩,
    poll := fun _ _ => ⟨true, false, none, [], none⟩,
    split := fun _ _ _ => Except.error "unused",
    dims := fun _ => none }

/-- Two nodes joined by a single edge (an acyclic well-formed graph). -/
def nodeA : WorkflowNode := ⟨"prompt-7", NodeData.prompt ⟨"a"⟩⟩

/-- Second node of the two-node graph. -/
def nodeB : WorkflowNode := ⟨"output-8", NodeData.output ⟨none⟩⟩

/-- The edge of the two-node acyclic graph. -/
def edgeAB : WorkflowEdge := ⟨"edge-ab", "prompt-7", "output-8", none, none, false⟩

/-- Reverse edge closing a two-cycle with `edgeAB`. -/
def edgeBA : WorkflowEdge := ⟨"edge-ba", "output-8", "prompt-7", none, none, false⟩

/-- Idle state over the cyclic two-node graph. -/
def stCyclic : WFState := ⟨[nodeA, nodeB], [edgeAB, edgeBA], false, none, none⟩

/-- A one-node workflow document whose only node id has numeric suffix 2. -/
def wfSmallDoc : WorkflowFile :=
  ⟨"doc", [⟨"imageInput-2", NodeData.imageInput ⟨none, none, none⟩⟩], [], []⟩

/-! # Theorems

## Object algebra -/

theorem objGet_cons (p : String × JVal) (o : Obj) (k : String) :
    objGet (p :: o) k = if p.1 = k then some p.2 else objGet o k := by
  by_cases h : p.1 = k <;> simp [objGet, List.find?_cons, h]

theorem objGet_append (l1 l2 : Obj) (k : String) :
    objGet (l1 ++ l2) k = Option.or (objGet l1 k) (objGet l2 k) := by
  induction l1 with
  | nil => simp [objGet]
  | cons p l1 ih =>
    by_cases h : p.1 = k <;> simp [objGet_cons, h, ih]

theorem objHasKey_cons (p : String × JVal) (o : Obj) (k : String) :
    objHasKey (p :: o) k = (decide (p.1 = k) || objHasKey o k) := by
  simp [objHasKey]

theorem objGet_eq_none_iff (o : Obj) (k : String) :
    objGet o k = none ↔ objHasKey o k = false := by
  induction o with
  | nil => simp [objGet, objHasKey]
  | cons p o ih =>
    by_cases h : p.1 = k <;> simp [objGet_cons, objHasKey_cons, h, ih]

theorem objGet_isSome_iff (o : Obj) (k : String) :
    (objGet o k).isSome = objHasKey o k := by
  rcases h : objGet o k with _ | v
  · simp [(objGet_eq_none_iff o k).mp h]
  · by_contra hc
    have : objHasKey o k = false := by
      cases hk : objHasKey o k
      · rfl
      · simp [h, hk] at hc
    rw [← objGet_eq_none_iff] at this
    rw [h] at this
    exact Option.noConfusion this

theorem objGet_map_set (o : Obj) (k : String) (v : JVal) (k' : String) :
    objGet (o.map (fun p => if p.1 = k then (k, v) else p)) k' =
      if k = k' then (if objHasKey o k then some v else none) else objGet o k' := by
  induction o with
  | nil => simp [objGet, objHasKey]
  | cons p o ih =>
    by_cases hp : p.1 = k
    · by_cases hkk : k = k'
      · simp [objGet_cons, hp, hkk, objHasKey_cons, ih]
      · have hp' : ¬ p.1 = k' := by
          rw [hp]
          exact hkk
        simp [objGet_cons, hp, hp', hkk, ih]
    · by_cases hp' : p.1 = k'
      · have hkk : ¬ k = k' := by
          intro he
          apply hp
          rw [hp', he]
        have hk'k : ¬ k' = k := by
          intro he
          exact hkk he.symm
        simp [objGet_cons, hp, hp', hkk, hk'k, objHasKey_cons, ih]
      · simp [objGet_cons, hp, hp', objHasKey_cons, ih]

theorem objGet_set_self (o : Obj) (k : String) (v : JVal) :
    objGet (objSet o k v) k = some v := by
  unfold objSet
  by_cases hk : objHasKey o k = true
  · rw [if_pos hk, objGet_map_set]
    simp [hk]
  · rw [if_neg hk, objGet_append]
    have h0 : objGet o k = none := by
      rw [objGet_eq_none_iff]
      cases h : objHasKey o k
      · rfl
      · exact absurd h hk
    simp [h0, objGet_cons]

theorem objGet_set_ne (o : Obj) (k : String) (v : JVal) (k' : String) (h : k' ≠ k) :
    objGet (objSet o k v) k' = objGet o k' := by
  have hkk : ¬ k = k' := by
    intro he
    exact h he.symm
  unfold objSet
  by_cases hk : objHasKey o k = true
  · rw [if_pos hk, objGet_map_set]
    simp [hkk]
  · rw [if_neg hk, objGet_append]
    simp [objGet_cons, objGet, hkk]

theorem objGet_delete_self (o : Obj) (k : String) :
    objGet (objDelete o k) k = none := by
  induction o with
  | nil => simp [objDelete, objGet]
  | cons p o ih =>
    by_cases h : p.1 = k
    · simpa [objDelete, List.filter_cons, h] using ih
    · rw [objDelete, List.filter_cons]
      simp only [h, decide_not]
      simpa [objGet_cons, h, objDelete] using ih

theorem objGet_delete_ne (o : Obj) (k k' : String) (h : k' ≠ k) :
    objGet (objDelete o k) k' = objGet o k' := by
  induction o with
  | nil => simp [objDelete]
  | cons p o ih =>
    by_cases hp : p.1 = k
    · have hp' : ¬ p.1 = k' := by
        rw [hp]
        intro he
        exact h he.symm
      rw [objDelete, List.filter_cons]
      simp only [hp, decide_not]
      simpa [objGet_cons, hp', objDelete] using ih
    · rw [objDelete, List.filter_cons]
      simp only [hp, decide_not]
      by_cases hp' : p.1 = k' <;> simpa [objGet_cons, hp', objDelete] using ih

theorem objGet_strip_mem (o : Obj) (keys : List String) (k : String) (h : k ∈ keys) :
    objGet (objStrip o keys) k = none := by
  induction o with
  | nil => simp [objStrip, objGet]
  | cons p o ih =>
    rw [objStrip, List.filter_cons]
    by_cases hp : p.1 ∈ keys
    · simpa [hp, objStrip] using ih
    · have hpk : ¬ p.1 = k := by
        intro he
        apply hp
        rw [he]
        exact h
      simpa [hp, objGet_cons, hpk, objStrip] using ih

theorem objGet_strip_not_mem (o : Obj) (keys : List String) (k : String) (h : ¬ k ∈ keys) :
    objGet (objStrip o keys) k = objGet o k := by
  induction o with
  | nil => simp [objStrip]
  | cons p o ih =>
    rw [objStrip, List.filter_cons]
    by_cases hp : p.1 ∈ keys
    · have hpk : ¬ p.1 = k := by
        intro he
        apply h
        rw [← he]
        exact hp
      simpa [hp, objGet_cons, hpk, objStrip] using ih
    · by_cases hpk : p.1 = k <;> simpa [hp, objGet_cons, hpk, h, objStrip] using ih

theorem objGet_map_override (a b : Obj) (k : String) :
    objGet (a.map (fun p =>
      match b.find? (fun q => q.1 = p.1) with
      | some q => (p.1, q.2)
      | none => p)) k =
      (objGet a k).map (fun v => (objGet b k).getD v) := by
  induction a with
  | nil => simp [objGet]
  | cons p a ih =>
    rcases p with ⟨pk, pv⟩
    by_cases hp : pk = k
    · subst hp
      rcases hb : b.find? (fun q => q.1 = pk) with _ | q
      · have hbk : objGet b pk = none := by
          simp [objGet, hb]
        simp [objGet_cons, hb, hbk]
      · have hbk : objGet b pk = some q.2 := by
          simp [objGet, hb]
        simp [objGet_cons, hb, hbk]
    · rcases hb : b.find? (fun q => q.1 = pk) with _ | q
      · simp [objGet_cons, hp, hb, ih]
      · have hq : q.1 = pk := by
          have := List.find?_some hb
          simpa using this
        have hqk : ¬ q.1 = k := by
          rw [hq]
          exact hp
        simp [objGet_cons, hp, hb, hqk, ih]

theorem objGet_filter_not_has (a b : Obj) (k : String) :
    objGet (b.filter (fun q => ¬ objHasKey a q.1)) k =
      if objHasKey a k then none else objGet b k := by
  induction b with
  | nil => simp [objGet]
  | cons q b ih =>
    rw [List.filter_cons]
    by_cases hq : objHasKey a q.1
    · rw [if_neg (by simp [hq])]
      by_cases hak : objHasKey a k
      · rw [ih, if_pos hak, if_pos hak]
      · have hqk : ¬ q.1 = k := fun he => hak (he ▸ hq)
        rw [ih, if_neg hak, if_neg hak, objGet_cons, if_neg hqk]
    · rw [if_pos (by simp [hq])]
      by_cases hk' : q.1 = k
      · have hak : ¬ objHasKey a k = true := by
          rw [← hk']
          exact hq
        rw [objGet_cons, if_pos hk', if_neg hak, objGet_cons, if_pos hk']
      · rw [objGet_cons, if_neg hk', ih]
        by_cases hak : objHasKey a k
        · rw [if_pos hak, if_pos hak]
        · rw [if_neg hak, if_neg hak, objGet_cons, if_neg hk']

theorem objGet_spread (a b : Obj) (k : String) :
    objGet (spreadObj a b) k = Option.or (objGet b k) (objGet a k) := by
  unfold spreadObj
  rw [objGet_append, objGet_map_override, objGet_filter_not_has]
  by_cases hk : objHasKey a k
  · rcases ha : objGet a k with _ | v
    · rw [objGet_eq_none_iff] at ha
      rw [ha] at hk
      exact absurd hk (by simp)
    · rcases hb : objGet b k with _ | w <;> simp [hk, ha, hb]
  · have ha : objGet a k = none := by
      rw [objGet_eq_none_iff]
      cases h : objHasKey a k
      · rfl
      · exact absurd h hk
    simp [hk, ha]

/-! ## Request-builder lemmas -/

theorem objGet_execRule1 (d p : Obj) (k : String)
    (h : ¬ k ∈ ["upscaleConfig", "mode", "sampleImageSize", "aspectRatio", "upscaleFactor"]) :
    objGet (execRule1 d p) k = objGet p k := by
  simp only [List.mem_cons, List.not_mem_nil, or_false, not_or] at h
  obtain ⟨h1, h2, h3, h4, h5⟩ := h
  unfold execRule1
  split
  · rw [objGet_delete_ne _ _ _ h5, objGet_delete_ne _ _ _ h4, objGet_delete_ne _ _ _ h3,
      objGet_set_ne _ _ _ _ h2, objGet_set_ne _ _ _ _ h1]
  · rfl

theorem objGet_execRule2 (model : String) (p : Obj) (k : String) (h : k ≠ "aspectRatio") :
    objGet (execRule2 model p) k = objGet p k := by
  unfold execRule2
  split
  · exact objGet_delete_ne _ _ _ h
  · rfl

theorem objGet_execRule3 (model : String) (p : Obj) (k : String) (h : k ≠ "safetySetting") :
    objGet (execRule3 model p) k = objGet p k := by
  unfold execRule3
  split
  · exact objGet_set_ne _ _ _ _ h
  · split
    · exact objGet_delete_ne _ _ _ h
    · rfl

theorem objGet_execRule4 (p : Obj) (k : String) (h : k ≠ "addWatermark") :
    objGet (execRule4 p) k = objGet p k := by
  unfold execRule4
  split
  · exact objGet_set_ne _ _ _ _ h
  · rfl

/-- The seed passes untouched from the configuration record into the payload
after the first three sanitization steps. -/
theorem objGet_seed_through_rule3 (nodeData : Obj) (images : List String) (text : String) :
    objGet (execRule3 (objGetStr nodeData "model") (execRule2 (objGetStr nodeData "model")
        (execRule1 (objStrip nodeData execStripKeys)
          (spreadObj (basePayload nodeData images text) (objStrip nodeData execStripKeys)))))
      "seed" = objGet nodeData "seed" := by
  rw [objGet_execRule3 _ _ _ (by decide), objGet_execRule2 _ _ _ (by decide),
    objGet_execRule1 _ _ _ (by decide), objGet_spread,
    objGet_strip_not_mem _ _ _ (by decide)]
  have hbase : objGet (basePayload nodeData images text) "seed" = none := by
    simp [basePayload, objGet]
  rw [hbase, Option.or_none]

/-- C3 (amended form, proved): when the configuration's seed parameter is
truthy, sanitization step 4 forces `addWatermark` to `false` before step 5 is
evaluated, so step 5's guard (`addWatermark === true`) can never hold and the
seed is retained: the built request carries the configuration's seed and an
explicit `addWatermark: false`. -/
theorem buildExecRequest_seed_retained (nodeData : Obj) (images : List String)
    (text : String) (hseed : jsTruthy (objGet nodeData "seed") = true) :
    objGet (buildExecRequest nodeData images text) "seed" = objGet nodeData "seed" ∧
    objGet (buildExecRequest nodeData images text) "addWatermark" = some (JVal.jbool false) := by
  unfold buildExecRequest
  have h3 := objGet_seed_through_rule3 nodeData images text
  set p3 := execRule3 (objGetStr nodeData "model") (execRule2 (objGetStr nodeData "model")
    (execRule1 (objStrip nodeData execStripKeys)
      (spreadObj (basePayload nodeData images text) (objStrip nodeData execStripKeys)))) with hp3
  have hseed3 : jsTruthy (objGet p3 "seed") = true := by rw [h3, hseed]
  have hrule4 : execRule4 p3 = objSet p3 "addWatermark" (JVal.jbool false) := by
    unfold execRule4
    rw [if_pos hseed3]
  have hwm : objGet (execRule4 p3) "addWatermark" = some (JVal.jbool false) := by
    rw [hrule4, objGet_set_self]
  have hrule5 : execRule5 (execRule4 p3) = execRule4 p3 := by
    unfold execRule5
    rw [hwm]
    simp [isTrueVal]
  rw [hrule5, hrule4]
  constructor
  · rw [objGet_set_ne _ _ _ _ (by decide), h3]
  · rw [objGet_set_self]

/-- C3 counterexample: with `addWatermark: true` and `seed: 7` in the
configuration, the built request still contains the seed (the claim asserts
it is omitted), and the watermark flag has been forced to `false`. -/
theorem buildExecRequest_watermark_seed_kept :
    objGet (buildExecRequest cfgSeedWatermark [] "p") "seed" = some (JVal.jnum 7) ∧
    objGet (buildExecRequest cfgSeedWatermark [] "p") "addWatermark" = some (JVal.jbool false) := by
  constructor <;> rfl

/-- Applying `buildExecRequest_seed_retained` at a concrete configuration. -/
theorem buildExecRequest_seed_retained_witness :
    jsTruthy (objGet cfgSeedWatermark "seed") = true ∧
    (objGet (buildExecRequest cfgSeedWatermark [] "p") "seed" = objGet cfgSeedWatermark "seed" ∧
     objGet (buildExecRequest cfgSeedWatermark [] "p") "addWatermark" =
       some (JVal.jbool false)) :=
  ⟨rfl, buildExecRequest_seed_retained cfgSeedWatermark [] "p" rfl⟩

/-- Keys absent from an object, as a statement about its entries. -/
theorem objGet_none_keys (o : Obj) (k : String) (h : objGet o k = none) :
    ∀ p ∈ o, p.1 ≠ k := by
  intro p hp
  unfold objGet at h
  rw [Option.map_eq_none'] at h
  have := List.find?_eq_none.mp h p hp
  simpa using this

/-- When the configuration has none of `userPrompt`, `outputImage`,
`useGoogleSearch`, the two destructurings leave the same dynamic record. -/
theorem objStrip_exec_eq_regen (nodeData : Obj)
    (h1 : objGet nodeData "userPrompt" = none)
    (h2 : objGet nodeData "outputImage" = none)
    (h3 : objGet nodeData "useGoogleSearch" = none) :
    objStrip nodeData execStripKeys = objStrip nodeData regenStripKeys := by
  unfold objStrip
  apply List.filter_congr
  intro p hp
  have n1 := objGet_none_keys nodeData "userPrompt" h1 p hp
  have n2 := objGet_none_keys nodeData "outputImage" h2 p hp
  have n3 := objGet_none_keys nodeData "useGoogleSearch" h3 p hp
  rw [decide_eq_decide]
  simp only [execStripKeys, regenStripKeys, List.mem_cons, List.not_mem_nil, or_false]
  constructor
  · intro hc
    tauto
  · intro hc
    tauto

/-- C2 (amended form, proved): the full-run and regenerate requests coincide
exactly in the degenerate case: the configuration carries none of the three
extra keys only the full-run path strips (`userPrompt`, `outputImage`,
`useGoogleSearch`) and every sanitization rule is a no-op (no truthy
`upscaleFactor`, an Imagen model with a truthy explicit `safetySetting`, no
truthy `seed`). -/
theorem execRequest_eq_regenRequest (nodeData : Obj) (images : List String) (text : String)
    (h1 : objGet nodeData "userPrompt" = none)
    (h2 : objGet nodeData "outputImage" = none)
    (h3 : objGet nodeData "useGoogleSearch" = none)
    (h4 : jsTruthy (objGet nodeData "upscaleFactor") = false)
    (h5 : includesImagen (objGetStr nodeData "model") = true)
    (h6 : jsTruthy (objGet nodeData "safetySetting") = true)
    (h7 : jsTruthy (objGet nodeData "seed") = false) :
    buildExecRequest nodeData images text = buildRegenRequest nodeData images text := by
  unfold buildExecRequest buildRegenRequest
  rw [objStrip_exec_eq_regen nodeData h1 h2 h3]
  set d := objStrip nodeData regenStripKeys with hd
  set p0 := spreadObj (basePayload nodeData images text) d with hp0
  have hpass : ∀ k : String, ¬ k ∈ regenStripKeys →
      objGet (basePayload nodeData images text) k = none → objGet p0 k = objGet nodeData k := by
    intro k hk hb
    rw [hp0, objGet_spread, hb, Option.or_none, hd, objGet_strip_not_mem _ _ _ hk]
  have hup : objGet d "upscaleFactor" = objGet nodeData "upscaleFactor" := by
    rw [hd, objGet_strip_not_mem _ _ _ (by decide)]
  have r1 : execRule1 d p0 = p0 := by
    unfold execRule1
    rw [hup, h4]
    simp
  have hsafe : objGet p0 "safetySetting" = objGet nodeData "safetySetting" := by
    apply hpass _ (by decide)
    simp [basePayload, objGet]
  have hseed : objGet p0 "seed" = objGet nodeData "seed" := by
    apply hpass _ (by decide)
    simp [basePayload, objGet]
  have r2 : execRule2 (objGetStr nodeData "model") p0 = p0 := by
    unfold execRule2
    rw [h5]
    simp
  have r3 : execRule3 (objGetStr nodeData "model") p0 = p0 := by
    unfold execRule3
    rw [h5, hsafe, h6]
    simp
  have r4 : execRule4 p0 = p0 := by
    unfold execRule4
    rw [hseed, h7]
    simp
  have r5 : execRule5 p0 = p0 := by
    unfold execRule5
    rw [hseed, h7]
    simp
  rw [r1, r2, r3, r4, r5]

/-- C2 counterexample: for a non-Imagen model with an `aspectRatio` and the
search toggle on, the regenerate request differs from the full-run request
(the full-run path deletes `aspectRatio` and strips `useGoogleSearch`; the
regenerate path sends both). -/
theorem regenRequest_differs_from_execRequest :
    buildExecRequest cfgGemini [] "p" ≠ buildRegenRequest cfgGemini [] "p" := by
  intro h
  have e1 : objGet (buildExecRequest cfgGemini [] "p") "aspectRatio" = none := rfl
  rw [h] at e1
  have e2 : objGet (buildRegenRequest cfgGemini [] "p") "aspectRatio" =
      some (JVal.jstr "1:1") := rfl
  rw [e2] at e1
  exact Option.noConfusion e1

/-- Applying `execRequest_eq_regenRequest` at a concrete configuration. -/
theorem execRequest_eq_regenRequest_witness :
    objGet cfgImagenAgree "userPrompt" = none ∧
    jsTruthy (objGet cfgImagenAgree "safetySetting") = true ∧
    buildExecRequest cfgImagenAgree ["i"] "p" = buildRegenRequest cfgImagenAgree ["i"] "p" :=
  ⟨rfl, rfl, execRequest_eq_regenRequest cfgImagenAgree ["i"] "p" rfl rfl rfl rfl rfl rfl rfl⟩

/-! ## Id counter lemmas (claim C4) -/

theorem digitChar_spec (d : Nat) (h : d < 10) :
    (digitChar d).isDigit = true ∧ digitVal (digitChar d) = d := by
  unfold digitChar digitVal
  interval_cases d <;> exact ⟨by decide, by decide⟩

theorem digitsToNat_append (xs : List Char) (c : Char) :
    digitsToNat (xs ++ [c]) = digitsToNat xs * 10 + digitVal c := by
  unfold digitsToNat
  simp [List.foldl_append]

theorem natDigitsAux_spec (fuel : Nat) : ∀ n : Nat, n ≤ fuel ∨ n < 10 →
    (∀ c ∈ natDigitsAux fuel n, c.isDigit = true) ∧
    digitsToNat (natDigitsAux fuel n) = n ∧ natDigitsAux fuel n ≠ [] := by
  induction fuel with
  | zero =>
    intro n h
    have hn : n < 10 := by omega
    obtain ⟨hd, hv⟩ := digitChar_spec n hn
    refine ⟨?_, ?_, by simp [natDigitsAux]⟩
    · intro c hc
      rw [natDigitsAux] at hc
      rw [List.mem_singleton.mp hc]
      exact hd
    · rw [natDigitsAux]
      unfold digitsToNat
      simpa using hv
  | succ fuel ih =>
    intro n h
    by_cases hn : n < 10
    · obtain ⟨hd, hv⟩ := digitChar_spec n hn
      rw [natDigitsAux, if_pos hn]
      refine ⟨?_, ?_, by simp⟩
      · intro c hc
        rw [List.mem_singleton.mp hc]
        exact hd
      · unfold digitsToNat
        simpa using hv
    · have hfuel : n / 10 ≤ fuel := by
        have := Nat.div_lt_self (show 0 < n by omega) (show 1 < 10 by omega)
        omega
      obtain ⟨ihd, ihv, ihne⟩ := ih (n / 10) (Or.inl hfuel)
      have hm : n % 10 < 10 := Nat.mod_lt _ (by omega)
      obtain ⟨hd, hv⟩ := digitChar_spec (n % 10) hm
      rw [natDigitsAux, if_neg hn]
      refine ⟨?_, ?_, by simp⟩
      · intro c hc
        rcases List.mem_append.mp hc with hc | hc
        · exact ihd c hc
        · rw [List.mem_singleton.mp hc]
          exact hd
      · rw [digitsToNat_append, ihv, hv]
        omega

theorem idNumericSuffix_mkNodeId (t : String) (m : Nat) :
    idNumericSuffix (mkNodeId t m) = some m := by
  obtain ⟨hdig, hval, hne⟩ := natDigitsAux_spec m m (Or.inl le_rfl)
  have hdata : (mkNodeId t m).toList = (t.data ++ ['-']) ++ natDigitsAux m m := by
    show (t ++ "-" ++ String.mk (natDigitsAux m m)).data = _
    rw [String.data_append, String.data_append]
  have hrev : (mkNodeId t m).toList.reverse =
      (natDigitsAux m m).reverse ++ ('-' :: t.data.reverse) := by
    rw [hdata, List.reverse_append, List.reverse_append]
    simp
  have htake : ((mkNodeId t m).toList.reverse.takeWhile Char.isDigit) =
      (natDigitsAux m m).reverse := by
    rw [hrev]
    have hall : ∀ l : List Char, (∀ c ∈ l, c.isDigit = true) →
        ∀ r : List Char, (l ++ ('-' :: r)).takeWhile Char.isDigit = l := by
      intro l
      induction l with
      | nil =>
        intro _ r
        simp [List.takeWhile_cons]
      | cons c l ihl =>
        intro hl r
        rw [List.cons_append, List.takeWhile_cons, hl c (by simp)]
        simp [ihl (fun c hc => hl c (by simp [hc])) r]
    apply hall
    intro c hc
    exact hdig c (by simpa using hc)
  simp only [idNumericSuffix]
  rw [htake, hrev]
  have hemp : ((natDigitsAux m m).reverse.isEmpty) = false := by
    rcases h : (natDigitsAux m m).reverse with _ | _
    · exact absurd (by simpa using h) hne
    · rfl
  rw [hemp]
  simp only [Bool.false_eq_true, if_false]
  rw [List.length_reverse, ← List.length_reverse (natDigitsAux m m), List.drop_left]
  simp [hval]

theorem maxIdSuffix_ge (ids : List String) :
    ∀ a : Nat, a ≤ ids.foldl
        (fun m id => match idNumericSuffix id with
          | some k => max m k
          | none => m) a ∧
      ∀ id ∈ ids, ∀ k, idNumericSuffix id = some k →
        k ≤ ids.foldl
          (fun m id => match idNumericSuffix id with
            | some k => max m k
            | none => m) a := by
  induction ids with
  | nil => simp
  | cons id ids ih =>
    intro a
    have hstep : a ≤ (match idNumericSuffix id with
        | some k => max a k
        | none => a) := by
      rcases idNumericSuffix id with _ | k
      · exact le_rfl
      · exact le_max_left _ _
    refine ⟨le_trans hstep (ih _).1, ?_⟩
    intro i hi k hk
    rcases List.mem_cons.mp hi with hi | hi
    · subst hi
      rw [List.foldl_cons, hk]
      exact le_trans (le_max_right a k) (ih _).1
    · exact (ih _).2 i hi k hk

/-- Every restored numeric suffix is bounded by `maxIdSuffix`. -/
theorem maxIdSuffix_ge_suffix (ids : List String) (id : String) (h : id ∈ ids)
    (k : Nat) (hk : idNumericSuffix id = some k) : k ≤ maxIdSuffix ids :=
  (maxIdSuffix_ge ids 0).2 id h k hk

/-- C4 counterexample: with the session counter at 5, loading a document
whose maximal numeric suffix is 2 leaves the counter at 2 — strictly below
its pre-load value (the claim asserts the counter never decreases). -/
theorem loadWorkflow_counter_can_decrease :
    (loadWorkflowCounters ⟨5, 0⟩ wfSmallDoc).nodeIdCounter < 5 := by decide

/-- C4 (amended form, proved): after `loadWorkflow` the node-id counter
equals the maximal numeric suffix of the document's node ids (it is not
combined with its previous value and may decrease); it is at least every
restored suffix, and ids generated afterwards (counter + k, k ≥ 1) collide
with no restored node id. -/
theorem loadWorkflow_counter_spec (c : StoreCounters) (wf : WorkflowFile) :
    (loadWorkflowCounters c wf).nodeIdCounter = maxIdSuffix (wf.nodes.map (fun n => n.id)) ∧
    (∀ n ∈ wf.nodes, ∀ k, idNumericSuffix n.id = some k →
      k ≤ (loadWorkflowCounters c wf).nodeIdCounter) ∧
    (∀ t k, 1 ≤ k → ∀ n ∈ wf.nodes,
      mkNodeId t ((loadWorkflowCounters c wf).nodeIdCounter + k) ≠ n.id) := by
  refine ⟨rfl, ?_, ?_⟩
  · intro n hn k hk
    exact maxIdSuffix_ge_suffix (wf.nodes.map (fun n => n.id)) n.id
      (List.mem_map_of_mem _ hn) k hk
  · intro t k hk n hn heq
    have h1 : idNumericSuffix n.id =
        some ((loadWorkflowCounters c wf).nodeIdCounter + k) := by
      rw [← heq]
      exact idNumericSuffix_mkNodeId t _
    have h2 := maxIdSuffix_ge_suffix (wf.nodes.map (fun n => n.id)) n.id
      (List.mem_map_of_mem _ hn) _ h1
    have h3 : (loadWorkflowCounters c wf).nodeIdCounter =
        maxIdSuffix (wf.nodes.map (fun n => n.id)) := rfl
    omega

/-- Applying `loadWorkflow_counter_spec` at a concrete store and document. -/
theorem loadWorkflow_counter_spec_witness :
    idNumericSuffix "imageInput-2" = some 2 ∧
    2 ≤ (loadWorkflowCounters ⟨5, 0⟩ wfSmallDoc).nodeIdCounter ∧
    mkNodeId "imageInput" ((loadWorkflowCounters ⟨5, 0⟩ wfSmallDoc).nodeIdCounter + 1) ≠
      "imageInput-2" :=
  ⟨by decide,
   (loadWorkflow_counter_spec ⟨5, 0⟩ wfSmallDoc).2.1
     ⟨"imageInput-2", NodeData.imageInput ⟨none, none, none⟩⟩
     (List.mem_singleton.mpr rfl) 2 (by decide),
   (loadWorkflow_counter_spec ⟨5, 0⟩ wfSmallDoc).2.2 "imageInput" 1 le_rfl
     ⟨"imageInput-2", NodeData.imageInput ⟨none, none, none⟩⟩
     (List.mem_singleton.mpr rfl)⟩

/-! ## Input-resolution lemmas (claims C9, C10) -/

/-- Normalizing an unset target handle to `"image"` does not change how one
edge is processed. -/
theorem gciStep_default_handle (nodes : List WorkflowNode)
    (acc : List String × Option String) (e : WorkflowEdge) :
    gciStep nodes acc
      (if e.targetHandle = none then { e with targetHandle := some "image" } else e) =
      gciStep nodes acc e := by
  by_cases h : e.targetHandle = none
  · rw [if_pos h]
    simp [gciStep, h]
  · rw [if_neg h]

/-- C10, part 1: rewriting every unset target handle to the image port leaves
input resolution unchanged, for every store and node. -/
theorem getConnectedInputs_default_handle (nodes : List WorkflowNode)
    (edges : List WorkflowEdge) (nodeId : String) :
    getConnectedInputs nodes
      (edges.map (fun e =>
        if e.targetHandle = none then { e with targetHandle := some "image" } else e))
      nodeId = getConnectedInputs nodes edges nodeId := by
  unfold getConnectedInputs
  rw [List.filter_map]
  have hfilter : (edges.filter ((fun e => decide (e.target = nodeId)) ∘ (fun e =>
      if e.targetHandle = none then { e with targetHandle := some "image" } else e))) =
      edges.filter (fun e => decide (e.target = nodeId)) := by
    apply List.filter_congr
    intro e _
    by_cases h : e.targetHandle = none
    · simp [h]
    · simp [h]
  rw [hfilter, List.foldl_map]
  have hfold : ∀ (l : List WorkflowEdge) (acc : List String × Option String),
      l.foldl (fun acc e => gciStep nodes acc
        (if e.targetHandle = none then { e with targetHandle := some "image" } else e)) acc =
      l.foldl (gciStep nodes) acc := by
    intro l
    induction l with
    | nil => intro acc; rfl
    | cons e l ih =>
      intro acc
      rw [List.foldl_cons, List.foldl_cons, gciStep_default_handle]
      exact ih _
  exact hfold _ _

/-- C10 (both parts, proved): an edge with an unset `targetHandle` is
resolved exactly as an image-port edge, and an image-port edge whose source
node has no image output contributes nothing to the resolved inputs. -/
theorem unsetHandle_imagePort_spec :
    (∀ (nodes : List WorkflowNode) (edges : List WorkflowEdge) (nodeId : String),
      getConnectedInputs nodes
        (edges.map (fun e =>
          if e.targetHandle = none then { e with targetHandle := some "image" } else e))
        nodeId = getConnectedInputs nodes edges nodeId) ∧
    (∀ (nodes : List WorkflowNode) (e : WorkflowEdge) (rest : List WorkflowEdge)
        (nodeId : String), e.target = nodeId →
      (e.targetHandle = some "image" ∨ e.targetHandle = none) →
      (∀ s ∈ nodes, s.id = e.source → sourceImageOf s.data = none) →
      getConnectedInputs nodes (e :: rest) nodeId = getConnectedInputs nodes rest nodeId) := by
  refine ⟨getConnectedInputs_default_handle, ?_⟩
  intro nodes e rest nodeId he hh hs
  unfold getConnectedInputs
  rw [List.filter_cons, if_pos (by simp [he]), List.foldl_cons]
  have hstep : gciStep nodes ([], none) e = ([], none) := by
    rcases hf : nodes.find? (fun n => n.id = e.source) with _ | s
    · unfold gciStep
      rw [hf]
    · have hsid : s.id = e.source := by simpa using List.find?_some hf
      have hnone : sourceImageOf s.data = none :=
        hs s (List.mem_of_find?_eq_some hf) hsid
      unfold gciStep
      rw [hf]
      rcases hh with hh | hh <;> simp [hh, hnone]
  rw [hstep]

/-- Applying `unsetHandle_imagePort_spec` at a concrete store. -/
theorem unsetHandle_imagePort_spec_witness :
    getConnectedInputs [nodeA, nodeB]
      ([edgeAB].map (fun e =>
        if e.targetHandle = none then { e with targetHandle := some "image" } else e))
      "output-8" = getConnectedInputs [nodeA, nodeB] [edgeAB] "output-8" ∧
    getConnectedInputs [nodeA, nodeB] (edgeAB :: []) "output-8" =
      getConnectedInputs [nodeA, nodeB] [] "output-8" :=
  ⟨unsetHandle_imagePort_spec.1 [nodeA, nodeB] [edgeAB] "output-8",
   unsetHandle_imagePort_spec.2 [nodeA, nodeB] edgeAB [] "output-8" rfl (Or.inr rfl)
     (by intro s hs hid
         rcases List.mem_cons.mp hs with h | h
         · rw [h]; rfl
         · rw [List.mem_singleton.mp h]; rfl)⟩

/-- C9 (proved): a connected prompt node holding the empty string resolves to
a falsy text input, and executing the generator produces exactly the same
observable outcome as having no text predecessor at all: the generator is
marked `status: "error"` with message "Missing text input" and the run halts
with the controller idle. -/
theorem emptyPrompt_same_as_missing (env : GenEnv) (cfg : Obj) :
    nodeDataOf (executeWorkflow env
        ⟨[⟨"prompt-1", NodeData.prompt ⟨""⟩⟩,
          ⟨"universalGenerator-2", NodeData.universalGenerator cfg⟩],
         [edgePG], false, none, none⟩ none) "universalGenerator-2" =
      some (NodeData.universalGenerator (spreadObj cfg
        [("status", JVal.jstr "error"), ("error", JVal.jstr "Missing text input")])) ∧
    nodeDataOf (executeWorkflow env
        ⟨[⟨"universalGenerator-2", NodeData.universalGenerator cfg⟩],
         [], false, none, none⟩ none) "universalGenerator-2" =
      some (NodeData.universalGenerator (spreadObj cfg
        [("status", JVal.jstr "error"), ("error", JVal.jstr "Missing text input")])) ∧
    (executeWorkflow env
        ⟨[⟨"prompt-1", NodeData.prompt ⟨""⟩⟩,
          ⟨"universalGenerator-2", NodeData.universalGenerator cfg⟩],
         [edgePG], false, none, none⟩ none).isRunning = false ∧
    (executeWorkflow env
        ⟨[⟨"universalGenerator-2", NodeData.universalGenerator cfg⟩],
         [], false, none, none⟩ none).isRunning = false := by
  refine ⟨rfl, rfl, rfl, rfl⟩

/-! ## Poller and run-halt lemmas (claim C6) -/

/-- A status endpoint that never reports done drives the polling loop to
exhaust all of its remaining fuel, one query per attempt. -/
theorem pollFrom_never_done (env : GenEnv) (opId : String)
    (h : ∀ n, (env.poll opId n).done = false) :
    ∀ (fuel attempts : Nat), pollFrom env opId attempts fuel = (PollOutcome.timeout, fuel) := by
  intro fuel
  induction fuel with
  | zero => intro attempts; rfl
  | succ fuel ih =>
    intro attempts
    rw [pollFrom]
    by_cases hok : (env.poll opId attempts).ok
    · rw [if_pos hok, if_neg (by rw [h attempts]; exact Bool.false_ne_true)]
      rw [ih (attempts + 1)]
    · rw [if_neg hok]
      rw [ih (attempts + 1)]

/-- C6 (proved): with a generation response carrying a job handle and a
status endpoint that never reports done, the poller performs exactly 120
status queries (the fixed ceiling, at the fixed 5000 ms interval) and the
timeout is reported like a request failure: the generator node is marked
`status: "error"` with the timeout message and the controller returns to
idle. -/
theorem jobPoller_timeout_spec (env : GenEnv)
    (hgen : ∀ p, env.generate p = ⟨true, "", true, none, none, some "op-1", none⟩)
    (hnever : ∀ n, (env.poll "op-1" n).done = false) :
    pollLoop env "op-1" = (PollOutcome.timeout, 120) ∧
    maxPollAttempts = 120 ∧ pollIntervalMs = 5000 ∧
    objGet (genConfigOf (executeWorkflow env stPG none) "universalGenerator-2") "status" =
      some (JVal.jstr "error") ∧
    objGet (genConfigOf (executeWorkflow env stPG none) "universalGenerator-2") "error" =
      some (JVal.jstr "Video generation timed out") ∧
    (executeWorkflow env stPG none).isRunning = false := by
  have hpoll : pollLoop env "op-1" = (PollOutcome.timeout, 120) :=
    pollFrom_never_done env "op-1" hnever maxPollAttempts 0
  refine ⟨hpoll, rfl, rfl, ?_, ?_, ?_⟩ <;>
    simp [executeWorkflow, stPG, topoSortSt, sortFuel, visitList, visit, runNodes, execNode,
      getConnectedInputs, gciStep, sourceImageOf, promptNode1, genNode1, edgePG,
      updateNodeData, mergeGen, truthyS, hgen, hpoll, genErrorHalt, haltState,
      genConfigOf, nodeDataOf, spreadObj, objGet, objHasKey, jsOrS]

/-- Applying `jobPoller_timeout_spec` to a concrete environment. -/
theorem jobPoller_timeout_spec_witness :
    pollLoop envNeverDone "op-1" = (PollOutcome.timeout, 120) ∧
    maxPollAttempts = 120 ∧ pollIntervalMs = 5000 ∧
    objGet (genConfigOf (executeWorkflow envNeverDone stPG none) "universalGenerator-2")
      "status" = some (JVal.jstr "error") ∧
    objGet (genConfigOf (executeWorkflow envNeverDone stPG none) "universalGenerator-2")
      "error" = some (JVal.jstr "Video generation timed out") ∧
    (executeWorkflow envNeverDone stPG none).isRunning = false :=
  jobPoller_timeout_spec envNeverDone (fun _ => rfl) (fun _ => rfl)

/-! ## Pause-checkpoint lemmas (claim C8) -/

/-- C8 (proved): (1) when the loop reaches a node with an incoming pause
edge and the run is not resuming exactly at that node, the run pauses before
executing it — the paused node id is recorded, the controller leaves the
running state and the state is otherwise untouched (no node at or past that
point executes); (2) when the run resumes exactly at that node, the pause
check is skipped and the node is executed; (3) a pause flag on any node
other than the resumed one is still honored. -/
theorem pause_checkpoint_spec :
    (∀ (env : GenEnv) (isResuming : Bool) (startFrom : Option String)
        (node : WorkflowNode) (rest : List WorkflowNode) (st : WFState),
      st.isRunning = true →
      (isResuming = false ∨ startFrom ≠ some node.id) →
      (∃ e ∈ st.edges, e.target = node.id ∧ e.hasPause = true) →
      runNodes env isResuming startFrom (node :: rest) st =
        { st with pausedAtNodeId := some node.id, isRunning := false,
                  currentNodeId := none }) ∧
    (∀ (env : GenEnv) (node : WorkflowNode) (rest : List WorkflowNode) (st : WFState),
      st.isRunning = true →
      runNodes env true (some node.id) (node :: rest) st =
        match execNode env node { st with currentNodeId := some node.id } with
        | StepRes.halt st' => st'
        | StepRes.proceed st' => runNodes env true (some node.id) rest st') ∧
    (∀ (env : GenEnv) (pid : String) (node : WorkflowNode) (rest : List WorkflowNode)
        (st : WFState),
      st.isRunning = true → node.id ≠ pid →
      (∃ e ∈ st.edges, e.target = node.id ∧ e.hasPause = true) →
      runNodes env true (some pid) (node :: rest) st =
        { st with pausedAtNodeId := some node.id, isRunning := false,
                  currentNodeId := none }) := by
  have hpause : ∀ (st : WFState) (node : WorkflowNode),
      (∃ e ∈ st.edges, e.target = node.id ∧ e.hasPause = true) →
      st.edges.any (fun e => decide (e.target = node.id) && e.hasPause) = true := by
    intro st node h
    rw [List.any_eq_true]
    obtain ⟨e, he, h1, h2⟩ := h
    exact ⟨e, he, by simp [h1, h2]⟩
  refine ⟨?_, ?_, ?_⟩
  · intro env isResuming startFrom node rest st h1 h2 h3
    rw [runNodes]
    rw [if_neg (by simp [h1])]
    have hguard : (isResuming && decide (startFrom = some node.id)) = false := by
      rcases h2 with h2 | h2
      · rw [h2, Bool.false_and]
      · simp [h2]
    rw [hguard]
    rw [if_pos (by rw [hpause st node h3]; rfl)]
  · intro env node rest st h1
    rw [runNodes]
    rw [if_neg (by simp [h1])]
    have hguard : ((true : Bool) && decide ((some node.id : Option String) = some node.id))
        = true := by simp
    rw [hguard]
    rw [if_neg (by simp)]
  · intro env pid node rest st h1 h2 h3
    rw [runNodes]
    rw [if_neg (by simp [h1])]
    have hne : ¬ pid = node.id := by
      intro hc
      exact h2 hc.symm
    have hguard : ((true : Bool) && decide ((some pid : Option String) = some node.id))
        = false := by simp [hne]
    rw [hguard]
    rw [if_pos (by rw [hpause st node h3]; rfl)]

/-- Applying `pause_checkpoint_spec` at a concrete running state. -/
theorem pause_checkpoint_spec_witness :
    runNodes envSync false none [genNode1] stPGpauseRunning =
      { stPGpauseRunning with pausedAtNodeId := some "universalGenerator-2",
                              isRunning := false, currentNodeId := none } ∧
    runNodes envSync true (some "universalGenerator-2") [genNode1] stPGpauseRunning =
      (match execNode envSync genNode1
          { stPGpauseRunning with currentNodeId := some "universalGenerator-2" } with
        | StepRes.halt st' => st'
        | StepRes.proceed st' =>
          runNodes envSync true (some "universalGenerator-2") [] st') ∧
    runNodes envSync true (some "prompt-1") [genNode1] stPGpauseRunning =
      { stPGpauseRunning with pausedAtNodeId := some "universalGenerator-2",
                              isRunning := false, currentNodeId := none } :=
  ⟨pause_checkpoint_spec.1 envSync false none genNode1 [] stPGpauseRunning rfl
     (Or.inl rfl) ⟨edgePGpause, List.mem_singleton.mpr rfl, rfl, rfl⟩,
   pause_checkpoint_spec.2.1 envSync genNode1 [] stPGpauseRunning rfl,
   pause_checkpoint_spec.2.2 envSync "prompt-1" genNode1 [] stPGpauseRunning rfl
     (by decide) ⟨edgePGpause, List.mem_singleton.mpr rfl, rfl, rfl⟩⟩

/-! ## Dependency-resolver lemmas (claims C5, C7) -/

theorem visitShape_refl (st : SortSt) : VisitShape st st :=
  ⟨rfl, fun _ hy => hy, fun _ hy => Or.inl hy⟩

theorem visitShape_trans (st st1 st2 : SortSt) (h1 : VisitShape st st1)
    (h2 : VisitShape st1 st2) : VisitShape st st2 := by
  obtain ⟨a1, b1, c1⟩ := h1
  obtain ⟨a2, b2, c2⟩ := h2
  refine ⟨a2.trans a1, fun y hy => b2 y (b1 y hy), fun y hy => ?_⟩
  rcases c2 y hy with h | h
  · exact c1 y h
  · rw [a1] at h
    exact Or.inr h

/-- Shape of a successful `visitList`, given the shape of each `visit`. -/
theorem visitList_ok_shape (g : String → SortSt → Except SortErr SortSt)
    (hg : ∀ x st st', g x st = Except.ok st' → VisitShape st st' ∧ x ∈ st'.visited) :
    ∀ (l : List String) (st st' : SortSt), visitList g l st = Except.ok st' →
      VisitShape st st' ∧ ∀ x ∈ l, x ∈ st'.visited := by
  intro l
  induction l with
  | nil =>
    intro st st' h
    simp only [visitList, Except.ok.injEq] at h
    subst h
    exact ⟨visitShape_refl st, by simp⟩
  | cons x xs ih =>
    intro st st' h
    rw [visitList] at h
    rcases hx : g x st with e | st1
    · rw [hx] at h
      exact Except.noConfusion h
    · rw [hx] at h
      obtain ⟨hs1, hm1⟩ := hg x st st1 hx
      obtain ⟨hs2, hm2⟩ := ih st1 st' h
      refine ⟨visitShape_trans _ _ _ hs1 hs2, ?_⟩
      intro y hy
      rcases List.mem_cons.mp hy with hy | hy
      · subst hy
        exact hs2.2.1 y hm1
      · exact hm2 y hy

/-- Shape of a successful `visit`. -/
theorem visit_ok_shape (nodes : List WorkflowNode) (edges : List WorkflowEdge) :
    ∀ (fuel : Nat) (x : String) (st st' : SortSt),
      visit nodes edges fuel x st = Except.ok st' →
      VisitShape st st' ∧ x ∈ st'.visited := by
  intro fuel
  induction fuel with
  | zero =>
    intro x st st' h
    rw [visit] at h
    exact Except.noConfusion h
  | succ fuel ih =>
    intro x st st' h
    rw [visit] at h
    by_cases hv : x ∈ st.visited
    · rw [if_pos hv] at h
      injection h with h
      subst h
      exact ⟨visitShape_refl st, hv⟩
    · rw [if_neg hv] at h
      by_cases hv2 : x ∈ st.visiting
      · rw [if_pos hv2] at h
        exact Except.noConfusion h
      · rw [if_neg hv2] at h
        split at h
        · exact Except.noConfusion h
        · rename_i st2 hl
          obtain ⟨hs, _⟩ := visitList_ok_shape (visit nodes edges fuel) (ih) _ _ _ hl
          have hvis2 : st2.visiting = x :: st.visiting := hs.1
          have hshape : VisitShape st
              ⟨x :: st2.visited, st2.visiting.erase x, st2.sorted⟩ := by
            refine ⟨?_, ?_, ?_⟩
            · show st2.visiting.erase x = st.visiting
              rw [hvis2]
              exact List.erase_cons_head x st.visiting
            · intro y hy
              exact List.mem_cons_of_mem _ (hs.2.1 y hy)
            · intro y hy
              rcases List.mem_cons.mp hy with hy | hy
              · subst hy
                exact Or.inr hv2
              · rcases hs.2.2 y hy with h1 | h1
                · exact Or.inl h1
                · have h2 : ¬ y ∈ x :: st.visiting := h1
                  exact Or.inr (fun hc => h2 (List.mem_cons_of_mem _ hc))
          split at h <;> injection h with h <;> subst h
          · exact ⟨⟨hshape.1, hshape.2.1, hshape.2.2⟩, by simp⟩
          · exact ⟨⟨hshape.1, hshape.2.1, hshape.2.2⟩, by simp⟩

/-- A `visitList` fault comes from a `visit` fault at a state with the same
in-progress stack. -/
theorem visitList_error_source (g : String → SortSt → Except SortErr SortSt)
    (hg : ∀ x st st', g x st = Except.ok st' → st'.visiting = st.visiting) :
    ∀ (l : List String) (st : SortSt) (e : SortErr),
      visitList g l st = Except.error e →
      ∃ x ∈ l, ∃ st1 : SortSt, st1.visiting = st.visiting ∧ g x st1 = Except.error e := by
  intro l
  induction l with
  | nil =>
    intro st e h
    rw [visitList] at h
    exact Except.noConfusion h
  | cons x xs ih =>
    intro st e h
    rw [visitList] at h
    rcases hx : g x st with e' | st1
    · rw [hx] at h
      injection h with h
      subst h
      exact ⟨x, by simp, st, rfl, hx⟩
    · rw [hx] at h
      obtain ⟨y, hy, st2, hv, hgy⟩ := ih st1 e h
      exact ⟨y, by simp [hy], st2, by rw [hv, hg x st st1 hx], hgy⟩

/-- With the recursion bound of `sortFuel`, the traversal can never exhaust
its fuel: the in-progress stack is duplicate-free and drawn from `allIds`. -/
theorem visit_no_fuelOut (nodes : List WorkflowNode) (edges : List WorkflowEdge) :
    ∀ (fuel : Nat) (x : String) (st : SortSt),
      st.visiting.Nodup →
      (∀ y ∈ st.visiting, y ∈ allIds nodes edges) →
      x ∈ allIds nodes edges →
      (allIds nodes edges).toFinset.card + 1 ≤ fuel + st.visiting.length →
      visit nodes edges fuel x st ≠ Except.error SortErr.fuelOut := by
  intro fuel
  induction fuel with
  | zero =>
    intro x st hnd hsub _ hcard _
    have h1 : st.visiting.length = st.visiting.toFinset.card :=
      (List.toFinset_card_of_nodup hnd).symm
    have h2 : st.visiting.toFinset ⊆ (allIds nodes edges).toFinset := by
      intro y hy
      rw [List.mem_toFinset] at hy ⊢
      exact hsub y hy
    have h3 := Finset.card_le_card h2
    have h4 := List.toFinset_card_le (allIds nodes edges)
    omega
  | succ fuel ih =>
    intro x st hnd hsub hx hcard h
    rw [visit] at h
    by_cases hv : x ∈ st.visited
    · rw [if_pos hv] at h
      exact Except.noConfusion h
    · rw [if_neg hv] at h
      by_cases hv2 : x ∈ st.visiting
      · rw [if_pos hv2] at h
        injection h with h
        exact SortErr.noConfusion h
      · rw [if_neg hv2] at h
        split at h
        · rename_i e hl
          injection h with h
          subst h
          obtain ⟨y, hy, st1, hvis, hgy⟩ := visitList_error_source _
            (fun a b c hok => (visit_ok_shape nodes edges fuel a b c hok).1.1) _ _ _ hl
          have hy' : y ∈ allIds nodes edges := by
            rcases List.mem_map.mp hy with ⟨e', he', rfl⟩
            exact List.mem_append_right _
              (List.mem_map_of_mem _ (List.mem_filter.mp he').1)
          refine ih y st1 ?_ ?_ hy' ?_ hgy
          · rw [hvis]
            exact List.nodup_cons.mpr ⟨hv2, hnd⟩
          · rw [hvis]
            intro z hz
            rcases List.mem_cons.mp hz with hz | hz
            · subst hz
              exact hx
            · exact hsub z hz
          · rw [hvis]
            simp only [List.length_cons]
            omega
        · rename_i st2 hl
          split at h <;> exact Except.noConfusion h

/-- In a chain `h :: t` linked by edges (newest first), the head reaches
every later element. -/
theorem chain'_transGen_head (r : String → String → Prop) :
    ∀ (t : List String) (h : String), List.Chain' r (h :: t) →
      ∀ x ∈ t, Relation.TransGen r h x := by
  intro t
  induction t with
  | nil =>
    intro h _ x hx
    exact absurd hx (List.not_mem_nil x)
  | cons y t ihl =>
    intro h hc x hx
    obtain ⟨hhy, hyt⟩ := List.chain'_cons.mp hc
    rcases List.mem_cons.mp hx with hx | hx
    · subst hx
      exact Relation.TransGen.single hhy
    · exact (Relation.TransGen.single hhy).trans (ihl y hyt x hx)

/-- In an acyclic graph, an id with an edge into the top of an edge-linked
in-progress stack cannot itself be on the stack. -/
theorem no_mem_visiting_entry (edges : List WorkflowEdge) (hacyc : Acyclic edges)
    (x hd : String) (t : List String)
    (hchain : List.Chain' (edgeRel edges) (hd :: t)) (hx : edgeRel edges x hd)
    (hmem : x ∈ hd :: t) : False := by
  rcases List.mem_cons.mp hmem with hm | hm
  · subst hm
    exact hacyc x (Relation.TransGen.single hx)
  · exact hacyc x ((Relation.TransGen.single hx).trans
      (chain'_transGen_head _ t hd hchain x hm))

/-- In an acyclic graph, the traversal never raises the cycle fault. -/
theorem visit_no_cycleErr (nodes : List WorkflowNode) (edges : List WorkflowEdge)
    (hacyc : Acyclic edges) :
    ∀ (fuel : Nat) (x : String) (st : SortSt),
      List.Chain' (edgeRel edges) st.visiting →
      ChainTop edges x st →
      visit nodes edges fuel x st ≠ Except.error SortErr.cycle := by
  intro fuel
  induction fuel with
  | zero =>
    intro x st _ _ h
    rw [visit] at h
    injection h with h
    exact SortErr.noConfusion h
  | succ fuel ih =>
    intro x st hchain htop h
    rw [visit] at h
    by_cases hv : x ∈ st.visited
    · rw [if_pos hv] at h
      exact Except.noConfusion h
    · rw [if_neg hv] at h
      by_cases hv2 : x ∈ st.visiting
      · rcases hvv : st.visiting with _ | ⟨hd, tl⟩
        · rw [hvv] at hv2
          exact absurd hv2 (List.not_mem_nil x)
        · have htop' : edgeRel edges x hd := by
            have := htop
            unfold ChainTop at this
            rw [hvv] at this
            exact this
          exact no_mem_visiting_entry edges hacyc x hd tl (hvv ▸ hchain) htop' (hvv ▸ hv2)
      · rw [if_neg hv2] at h
        split at h
        · rename_i e hl
          injection h with h
          subst h
          obtain ⟨y, hy, st1, hvis, hgy⟩ := visitList_error_source _
            (fun a b c hok => (visit_ok_shape nodes edges fuel a b c hok).1.1) _ _ _ hl
          rcases List.mem_map.mp hy with ⟨e', he', hsrc⟩
          have he'2 := List.mem_filter.mp he'
          have hrel : edgeRel edges y x :=
            ⟨e', he'2.1, hsrc, by simpa using he'2.2⟩
          refine ih y st1 ?_ ?_ hgy
          · rw [hvis]
            rcases hvv : st.visiting with _ | ⟨hd, tl⟩
            · exact List.chain'_singleton x
            · refine List.chain'_cons.mpr ⟨?_, hvv ▸ hchain⟩
              have := htop
              unfold ChainTop at this
              rw [hvv] at this
              exact this
          · unfold ChainTop
            rw [hvis]
            exact hrel
        · rename_i st2 hl
          split at h <;> exact Except.noConfusion h

/-- The invariant reads only the `visited` and `sorted` fields. -/
theorem sortInv_of_fields (nodes : List WorkflowNode) (edges : List WorkflowEdge)
    (st st' : SortSt) (hvd : st'.visited = st.visited) (hso : st'.sorted = st.sorted)
    (h : SortInv nodes edges st) : SortInv nodes edges st' := by
  refine ⟨?_, ?_, ?_, ?_, ?_⟩
  · rw [hso]
    exact h.sorted_mem
  · rw [hso]
    exact h.sorted_nodupIds
  · intro n hn
    rw [hvd, hso]
    exact h.visited_iff n hn
  · rw [hvd]
    exact h.visited_closed
  · rw [hso]
    exact h.sorted_order

/-- Invariant preservation across `visitList`. -/
theorem visitList_inv (nodes : List WorkflowNode) (edges : List WorkflowEdge)
    (g : String → SortSt → Except SortErr SortSt)
    (hg : ∀ x st st', g x st = Except.ok st' →
      SortInv nodes edges st → SortInv nodes edges st') :
    ∀ (l : List String) (st st' : SortSt), visitList g l st = Except.ok st' →
      SortInv nodes edges st → SortInv nodes edges st' := by
  intro l
  induction l with
  | nil =>
    intro st st' h hinv
    simp only [visitList, Except.ok.injEq] at h
    subst h
    exact hinv
  | cons x xs ih =>
    intro st st' h hinv
    rw [visitList] at h
    rcases hx : g x st with e | st1
    · rw [hx] at h
      exact Except.noConfusion h
    · rw [hx] at h
      exact ih st1 st' h (hg x st st1 hx hinv)

/-- Invariant preservation across `visit`. -/
theorem visit_inv (nodes : List WorkflowNode) (edges : List WorkflowEdge)
    (hwf : wellFormed nodes edges) :
    ∀ (fuel : Nat) (x : String) (st st' : SortSt),
      visit nodes edges fuel x st = Except.ok st' →
      SortInv nodes edges st → SortInv nodes edges st' := by
  intro fuel
  induction fuel with
  | zero =>
    intro x st st' h
    rw [visit] at h
    exact Except.noConfusion h
  | succ fuel ih =>
    intro x st st' h hinv
    rw [visit] at h
    by_cases hv : x ∈ st.visited
    · rw [if_pos hv] at h
      injection h with h
      subst h
      exact hinv
    · rw [if_neg hv] at h
      by_cases hv2 : x ∈ st.visiting
      · rw [if_pos hv2] at h
        exact Except.noConfusion h
      · rw [if_neg hv2] at h
        split at h
        · exact Except.noConfusion h
        · rename_i st2 hl
          have hinv1 : SortInv nodes edges { st with visiting := x :: st.visiting } :=
            sortInv_of_fields nodes edges st _ rfl rfl hinv
          have hinv2 : SortInv nodes edges st2 :=
            visitList_inv nodes edges _ (ih) _ _ _ hl hinv1
          obtain ⟨hshape2, hmem2⟩ := visitList_ok_shape _
            (visit_ok_shape nodes edges fuel) _ _ _ hl
          have hxnv2 : ¬ x ∈ st2.visited := by
            intro hx2
            rcases hshape2.2.2 x hx2 with hx1 | hx1
            · exact hv hx1
            · exact hx1 (List.mem_cons_self x st.visiting)
          have hxns2 : ¬ x ∈ st2.sorted.map (fun n => n.id) := by
            intro hx2
            rcases List.mem_map.mp hx2 with ⟨m, hm, hmid⟩
            apply hxnv2
            have := (hinv2.visited_iff m (hinv2.sorted_mem m hm)).mpr
              (List.mem_map_of_mem _ hm)
            rw [hmid] at this
            exact this
          have hsrc_vis : ∀ e ∈ edges, e.target = x → e.source ∈ st2.visited := by
            intro e he ht
            apply hmem2
            exact List.mem_map_of_mem _ (List.mem_filter.mpr ⟨he, by simp [ht]⟩)
          split at h <;> injection h with h <;> subst h
          · -- a matching node exists: it is appended to the order
            rename_i node hf
            have hnodeid : node.id = x := by simpa using List.find?_some hf
            have hnodemem : node ∈ nodes := List.mem_of_find?_eq_some hf
            refine ⟨?_, ?_, ?_, ?_, ?_⟩
            · intro n hn
              rcases List.mem_append.mp hn with hn | hn
              · exact hinv2.sorted_mem n hn
              · rw [List.mem_singleton.mp hn]
                exact hnodemem
            · rw [List.map_append]
              rw [List.nodup_append]
              refine ⟨hinv2.sorted_nodupIds, by simp, ?_⟩
              intro a ha hb
              simp only [List.map_cons, List.map_nil, List.mem_singleton] at hb
              rw [hb, hnodeid] at ha
              exact hxns2 ha
            · intro n hn
              by_cases hnx : n.id = x
              · constructor
                · intro _
                  rw [List.map_append]
                  apply List.mem_append_right
                  simp [hnodeid, hnx]
                · intro _
                  show n.id ∈ x :: st2.visited
                  rw [hnx]
                  exact List.mem_cons_self x st2.visited
              · constructor
                · intro hmem
                  rcases List.mem_cons.mp hmem with hha | hha
                  · exact absurd hha hnx
                  · rw [List.map_append]
                    exact List.mem_append_left _ ((hinv2.visited_iff n hn).mp hha)
                · intro hmem
                  rw [List.map_append] at hmem
                  rcases List.mem_append.mp hmem with hha | hha
                  · exact List.mem_cons_of_mem _ ((hinv2.visited_iff n hn).mpr hha)
                  · simp only [List.map_cons, List.map_nil, List.mem_singleton] at hha
                    rw [hnodeid] at hha
                    exact absurd hha hnx
            · intro i hi e he ht
              rcases List.mem_cons.mp hi with hha | hha
              · subst hha
                exact List.mem_cons_of_mem _ (hsrc_vis e he ht)
              · exact List.mem_cons_of_mem _ (hinv2.visited_closed i hha e he ht)
            · intro e he ht
              rw [List.map_append] at ht ⊢
              rcases List.mem_append.mp ht with hta | hta
              · exact (hinv2.sorted_order e he hta).trans (List.sublist_append_left _ _)
              · simp only [List.map_cons, List.map_nil, List.mem_singleton] at hta
                have htx : e.target = x := by rw [hta, hnodeid]
                have hsv := hsrc_vis e he htx
                have hsn : e.source ∈ nodes.map (fun n => n.id) := (hwf e he).1
                rcases List.mem_map.mp hsn with ⟨m, hm, hmid⟩
                have hss : e.source ∈ st2.sorted.map (fun n => n.id) := by
                  rw [← hmid]
                  apply (hinv2.visited_iff m hm).mp
                  rw [hmid]
                  exact hsv
                have h1 : List.Sublist [e.source] (st2.sorted.map (fun n => n.id)) :=
                  List.singleton_sublist.mpr hss
                have h2 : List.Sublist [e.target] ([node].map (fun n => n.id)) := by
                  simp [hnodeid, htx]
                exact List.Sublist.append h1 h2
          · -- no matching node: only `visited` changes
            rename_i hf
            have hnonode : ∀ n ∈ nodes, ¬ n.id = x := by
              have hff := List.find?_eq_none.mp hf
              intro n hn
              simpa using hff n hn
            refine ⟨?_, ?_, ?_, ?_, ?_⟩
            · exact hinv2.sorted_mem
            · exact hinv2.sorted_nodupIds
            · intro n hn
              constructor
              · intro hmem
                rcases List.mem_cons.mp hmem with hha | hha
                · exact absurd hha (hnonode n hn)
                · exact (hinv2.visited_iff n hn).mp hha
              · intro hmem
                exact List.mem_cons_of_mem _ ((hinv2.visited_iff n hn).mpr hmem)
            · intro i hi e he ht
              rcases List.mem_cons.mp hi with hha | hha
              · subst hha
                exact List.mem_cons_of_mem _ (hsrc_vis e he ht)
              · exact List.mem_cons_of_mem _ (hinv2.visited_closed i hha e he ht)
            · exact hinv2.sorted_order

/-- A successful full sort satisfies the invariant and has visited every
node of the store. -/
theorem topoSort_ok_spec (nodes : List WorkflowNode) (edges : List WorkflowEdge)
    (hwf : wellFormed nodes edges) (stF : SortSt)
    (h : topoSortSt nodes edges = Except.ok stF) :
    SortInv nodes edges stF ∧ ∀ n ∈ nodes, n.id ∈ stF.visited := by
  have hinit : SortInv nodes edges ⟨[], [], []⟩ := by
    refine ⟨?_, ?_, ?_, ?_, ?_⟩ <;> simp
  obtain ⟨_, hmem⟩ := visitList_ok_shape _
    (visit_ok_shape nodes edges (sortFuel nodes edges)) _ _ _ h
  have hinv := visitList_inv nodes edges _
    (visit_inv nodes edges hwf (sortFuel nodes edges)) _ _ _ h hinit
  exact ⟨hinv, fun n hn => hmem n.id (List.mem_map_of_mem _ hn)⟩

/-- The embedding's recursion bound is never the cause of a sort fault. -/
theorem topoSort_no_fuelOut (nodes : List WorkflowNode) (edges : List WorkflowEdge) :
    topoSortSt nodes edges ≠ Except.error SortErr.fuelOut := by
  intro h
  obtain ⟨x, hx, st1, hvis, hgy⟩ := visitList_error_source _
    (fun a b c hok => (visit_ok_shape nodes edges (sortFuel nodes edges) a b c hok).1.1)
    _ _ _ h
  refine visit_no_fuelOut nodes edges (sortFuel nodes edges) x st1 ?_ ?_ ?_ ?_ hgy
  · rw [hvis]
    exact List.nodup_nil
  · rw [hvis]
    intro y hy
    exact absurd hy (List.not_mem_nil y)
  · rcases List.mem_map.mp hx with ⟨n, hn, rfl⟩
    exact List.mem_append_left _ (List.mem_map_of_mem _ hn)
  · rw [hvis]
    have h1 := List.toFinset_card_le (allIds nodes edges)
    have h2 : (allIds nodes edges).length = nodes.length + edges.length := by
      simp [allIds]
    unfold sortFuel
    simp only [List.length_nil]
    omega

/-- In an acyclic graph the sort never raises the cycle fault. -/
theorem topoSort_no_cycleErr (nodes : List WorkflowNode) (edges : List WorkflowEdge)
    (hacyc : Acyclic edges) :
    topoSortSt nodes edges ≠ Except.error SortErr.cycle := by
  intro h
  obtain ⟨x, _, st1, hvis, hgy⟩ := visitList_error_source _
    (fun a b c hok => (visit_ok_shape nodes edges (sortFuel nodes edges) a b c hok).1.1)
    _ _ _ h
  refine visit_no_cycleErr nodes edges hacyc (sortFuel nodes edges) x st1 ?_ ?_ hgy
  · rw [hvis]
    exact List.chain'_nil
  · unfold ChainTop
    rw [hvis]
    trivial

/-- C7 (proved): for a well-formed acyclic graph with globally unique node
ids, the depth-first three-color traversal succeeds, its order is a
permutation of the node list (each node exactly once), and for every edge
the source node precedes the target node in the order. -/
theorem dependency_resolver_topological (nodes : List WorkflowNode)
    (edges : List WorkflowEdge) (hwf : wellFormed nodes edges)
    (hnodup : (nodes.map (fun n => n.id)).Nodup) (hacyc : Acyclic edges) :
    ∃ stF, topoSortSt nodes edges = Except.ok stF ∧
      List.Perm stF.sorted nodes ∧
      ∀ e ∈ edges, List.Sublist [e.source, e.target] (stF.sorted.map (fun n => n.id)) := by
  rcases hres : topoSortSt nodes edges with e | stF
  · exfalso
    cases e
    · exact topoSort_no_cycleErr nodes edges hacyc hres
    · exact topoSort_no_fuelOut nodes edges hres
  · obtain ⟨hinv, hall⟩ := topoSort_ok_spec nodes edges hwf stF hres
    refine ⟨stF, rfl, ?_, ?_⟩
    · have hsnd : stF.sorted.Nodup := hinv.sorted_nodupIds.of_map
      have hnnd : nodes.Nodup := hnodup.of_map
      rw [List.perm_ext_iff_of_nodup hsnd hnnd]
      intro m
      constructor
      · exact fun hm => hinv.sorted_mem m hm
      · intro hm
        have h1 : m.id ∈ stF.sorted.map (fun n => n.id) :=
          (hinv.visited_iff m hm).mp (hall m hm)
        rcases List.mem_map.mp h1 with ⟨m', hm', hmid⟩
        have hm'nodes := hinv.sorted_mem m' hm'
        have hmm := List.inj_on_of_nodup_map hnodup hm'nodes hm hmid
        rw [← hmm]
        exact hm'
    · intro e he
      have htn : e.target ∈ nodes.map (fun n => n.id) := (hwf e he).2
      rcases List.mem_map.mp htn with ⟨n, hn, hnid⟩
      have hts : e.target ∈ stF.sorted.map (fun n => n.id) := by
        rw [← hnid]
        exact (hinv.visited_iff n hn).mp (hall n hn)
      exact hinv.sorted_order e he hts

/-- The single edge of the two-node graph closes no cycle. -/
theorem acyclic_edgeAB : Acyclic [edgeAB] := by
  intro x hx
  have hstep : ∀ a b, edgeRel [edgeAB] a b → a = "prompt-7" ∧ b = "output-8" := by
    intro a b hab
    obtain ⟨e, he, h1, h2⟩ := hab
    rw [List.mem_singleton] at he
    subst he
    constructor
    · rw [← h1]
      rfl
    · rw [← h2]
      rfl
  have hTG : ∀ a b, Relation.TransGen (edgeRel [edgeAB]) a b →
      a = "prompt-7" ∧ b = "output-8" := by
    intro a b h
    induction h with
    | single h1 => exact hstep _ _ h1
    | tail _ hbc ihg =>
      obtain ⟨h1, _⟩ := hstep _ _ hbc
      obtain ⟨_, h4⟩ := ihg
      rw [h4] at h1
      exact absurd h1 (by decide)
  obtain ⟨h1, h2⟩ := hTG x x hx
  rw [h1] at h2
  exact absurd h2 (by decide)

/-- Applying `dependency_resolver_topological` to a concrete acyclic graph. -/
theorem dependency_resolver_topological_witness :
    wellFormed [nodeA, nodeB] [edgeAB] ∧
    ∃ stF, topoSortSt [nodeA, nodeB] [edgeAB] = Except.ok stF ∧
      List.Perm stF.sorted [nodeA, nodeB] ∧
      ∀ e ∈ [edgeAB], List.Sublist [e.source, e.target] (stF.sorted.map (fun n => n.id)) :=
  ⟨by unfold wellFormed; decide,
   dependency_resolver_topological [nodeA, nodeB] [edgeAB]
     (by unfold wellFormed; decide) (by decide) acyclic_edgeAB⟩

/-- For a duplicate-free list, a two-element sublist orders its elements. -/
theorem sublist_pair_indexOf_lt (a b : String) :
    ∀ l : List String, l.Nodup → List.Sublist [a, b] l → l.indexOf a < l.indexOf b := by
  intro l
  induction l with
  | nil =>
    intro _ h
    exact absurd (List.sublist_nil.mp h) (by simp)
  | cons c l ihl =>
    intro hl h
    cases h with
    | cons _ h' =>
      have ha : a ∈ l := h'.subset (by simp)
      have hb : b ∈ l := h'.subset (by simp)
      have hcl : c ∉ l := (List.nodup_cons.mp hl).1
      have hac : ¬ c = a := fun hc => hcl (hc ▸ ha)
      have hbc : ¬ c = b := fun hc => hcl (hc ▸ hb)
      rw [List.indexOf_cons_ne _ hac, List.indexOf_cons_ne _ hbc]
      have := ihl (List.nodup_cons.mp hl).2 h'
      omega
    | cons₂ _ h' =>
      have hb : b ∈ l := h'.subset (by simp)
      have hcl : a ∉ l := (List.nodup_cons.mp hl).1
      have hba : ¬ a = b := fun hc => hcl (hc ▸ hb)
      rw [List.indexOf_cons_self, List.indexOf_cons_ne _ hba]
      omega

/-- A graph with a directed cycle makes the sort raise the cycle fault. -/
theorem cycle_detected (nodes : List WorkflowNode) (edges : List WorkflowEdge)
    (hwf : wellFormed nodes edges)
    (hcyc : ∃ x, Relation.TransGen (edgeRel edges) x x) :
    topoSortSt nodes edges = Except.error SortErr.cycle := by
  rcases hres : topoSortSt nodes edges with e | stF
  · cases e
    · rfl
    · exact absurd hres (topoSort_no_fuelOut nodes edges)
  · exfalso
    obtain ⟨hinv, hall⟩ := topoSort_ok_spec nodes edges hwf stF hres
    obtain ⟨x, hx⟩ := hcyc
    have hstep : ∀ a b, edgeRel edges a b →
        (stF.sorted.map (fun n => n.id)).indexOf a <
          (stF.sorted.map (fun n => n.id)).indexOf b := by
      intro a b hab
      obtain ⟨e, he, hsrc, htgt⟩ := hab
      have htn : b ∈ nodes.map (fun n => n.id) := by
        rw [← htgt]
        exact (hwf e he).2
      rcases List.mem_map.mp htn with ⟨n, hn, hnid⟩
      have hbs : b ∈ stF.sorted.map (fun n => n.id) := by
        rw [← hnid]
        exact (hinv.visited_iff n hn).mp (hall n hn)
      have hsub := hinv.sorted_order e he (by rw [htgt]; exact hbs)
      rw [hsrc, htgt] at hsub
      exact sublist_pair_indexOf_lt a b _ hinv.sorted_nodupIds hsub
    have hlt : ∀ a b, Relation.TransGen (edgeRel edges) a b →
        (stF.sorted.map (fun n => n.id)).indexOf a <
          (stF.sorted.map (fun n => n.id)).indexOf b := by
      intro a b h
      induction h with
      | single h1 => exact hstep _ _ h1
      | tail _ hbc ihg => exact lt_trans ihg (hstep _ _ hbc)
    exact lt_irrefl _ (hlt x x hx)

/-- C5 (proved): on a well-formed graph containing a directed cycle, a run
started from idle raises the cycle fault before any node executes: the sort
faults, and `executeWorkflow` returns with every node's data untouched and
the controller idle. -/
theorem cycle_aborts_run (env : GenEnv) (st : WFState) (startFrom : Option String)
    (hwf : wellFormed st.nodes st.edges) (hrun : st.isRunning = false)
    (hcyc : ∃ x, Relation.TransGen (edgeRel st.edges) x x) :
    topoSortSt st.nodes st.edges = Except.error SortErr.cycle ∧
    (executeWorkflow env st startFrom).nodes = st.nodes ∧
    (executeWorkflow env st startFrom).isRunning = false ∧
    (executeWorkflow env st startFrom).currentNodeId = none := by
  have hc := cycle_detected st.nodes st.edges hwf hcyc
  refine ⟨hc, ?_, ?_, ?_⟩ <;> simp [executeWorkflow, hrun, hc, haltState]

/-- Applying `cycle_aborts_run` to a concrete two-node cycle. -/
theorem cycle_aborts_run_witness :
    topoSortSt stCyclic.nodes stCyclic.edges = Except.error SortErr.cycle ∧
    (executeWorkflow envSync stCyclic none).nodes = stCyclic.nodes ∧
    (executeWorkflow envSync stCyclic none).isRunning = false ∧
    (executeWorkflow envSync stCyclic none).currentNodeId = none :=
  cycle_aborts_run envSync stCyclic none (by unfold wellFormed; decide) rfl
    ⟨"prompt-7", Relation.TransGen.head
      ⟨edgeAB, by simp [stCyclic], rfl, rfl⟩
      (Relation.TransGen.single ⟨edgeBA, by simp [stCyclic], rfl, rfl⟩)⟩

/-! ## Generator completion ends the run (claim C1) -/

/-- C1 (code divergence, demonstrated): in the three-node workflow
prompt → generator → output, the resolved order places the output node after
the generator; the generator completes successfully (`status: "success"`),
yet `executeWorkflow` returns with the controller idle and the output node's
data untouched — the success branch of the generator case sets
`isRunning: false` and returns instead of continuing with the remaining
nodes of the order. -/
theorem generator_success_ends_run :
    (match topoSortSt stPGO.nodes stPGO.edges with
      | Except.ok s => s.sorted.map (fun n => n.id)
      | Except.error _ => []) =
        ["prompt-1", "universalGenerator-2", "output-3"] ∧
    objGet (genConfigOf (executeWorkflow envSync stPGO none) "universalGenerator-2")
      "status" = some (JVal.jstr "success") ∧
    (executeWorkflow envSync stPGO none).isRunning = false ∧
    nodeDataOf (executeWorkflow envSync stPGO none) "output-3" =
      some (NodeData.output ⟨none⟩) := by
  refine ⟨rfl, rfl, rfl, rfl⟩

end NodeBanana
